import Mathlib

/-!
Shallow embedding of `scripts/deduplicate.py` (proxy-subscription parser,
normalizer, fingerprint engine and deduplicator) together with the parts of
the Python standard library the script relies on (`urllib.parse.urlsplit`,
`base64.b64decode` in lenient mode, `uuid.UUID` string parsing, strict UTF-8
decoding, `json.dumps`, `hashlib.sha256`).  Python strings are modelled as
`List Char` (the inputs of interest are ASCII), Python dicts as
insertion-ordered association lists with unique keys, and Python `None` as a
distinguished value of the `PyVal` type.  Exceptions are modelled with
`Option`/`Except`: a function returns `none` exactly where the corresponding
Python code raises an exception that the script catches and converts into a
parse failure.
-/

namespace Dedup

/-- Python strings, modelled as lists of characters. -/
abbrev Str := List Char

/-- Convert a Lean string literal into the `Str` model. -/
def S (s : String) : Str := s.data

/-- ASCII lower-casing of one character, the restriction of Python
`str.lower` to the ASCII inputs this program handles. -/
def lowerChar (c : Char) : Char :=
  if h : 65 ≤ c.toNat ∧ c.toNat ≤ 90 then
    { val := ⟨⟨c.toNat + 32, by omega⟩⟩
      valid := Or.inl (show c.toNat + 32 < 55296 by omega) }
  else c

/-- Python `str.lower` (ASCII fragment). -/
def pyLower (s : Str) : Str := s.map lowerChar

theorem lowerChar_toNat_of_upper {c : Char} (h : 65 ≤ c.toNat ∧ c.toNat ≤ 90) :
    (lowerChar c).toNat = c.toNat + 32 := by
  unfold lowerChar
  rw [dif_pos h]
  rfl

theorem lowerChar_idem (c : Char) : lowerChar (lowerChar c) = lowerChar c := by
  by_cases h : 65 ≤ c.toNat ∧ c.toNat ≤ 90
  · have hn := lowerChar_toNat_of_upper h
    unfold lowerChar
    rw [dif_pos h, dif_neg]
    have : (lowerChar c).toNat = c.toNat + 32 := hn
    unfold lowerChar at this
    rw [dif_pos h] at this
    omega
  · unfold lowerChar
    rw [dif_neg h, dif_neg h]

theorem pyLower_idem (s : Str) : pyLower (pyLower s) = pyLower s := by
  unfold pyLower
  rw [List.map_map]
  exact List.map_congr_left fun c _ => lowerChar_idem c

theorem pyLower_length (s : Str) : (pyLower s).length = s.length :=
  List.length_map _ _

theorem pyLower_eq_nil_iff (s : Str) : pyLower s = [] ↔ s = [] := by
  constructor
  · intro h
    have := congrArg List.length h
    rw [pyLower_length] at this
    exact List.eq_nil_of_length_eq_zero this
  · intro h; subst h; rfl

/-! ### Python `str` methods on the `Str` model -/

/-- Does `pat` occur at the start of `s`? (helper for substring search). -/
def leadsWith : Str → Str → Bool
  | [], _ => true
  | _ :: _, [] => false
  | p :: ps, c :: cs => p = c && leadsWith ps cs

/-- Python `str.replace(old, new)` for a one-character `old`. -/
def replaceChar (s : Str) (old new : Char) : Str :=
  s.map fun c => if c = old then new else c

/-- Python `str.replace(old, '')` for a one-character `old`: removes every
occurrence. -/
def removeChar (s : Str) (old : Char) : Str :=
  s.filter fun c => c ≠ old

/-- Worker for `removeSub`, structurally recursive on a fuel argument (the
fuel, initialised to the string length, never runs out: every step consumes
at least one character). -/
def removeSubAux (pat : Str) : Nat → Str → Str
  | _, [] => []
  | 0, s => s
  | fuel + 1, c :: rest =>
    if pat ≠ [] ∧ leadsWith pat (c :: rest) then removeSubAux pat fuel ((c :: rest).drop pat.length)
    else c :: removeSubAux pat fuel rest

/-- Python `str.replace(pat, '')` (left-to-right, non-overlapping removal of a
non-empty pattern). -/
def removeSub (s : Str) (pat : Str) : Str := removeSubAux pat s.length s

/-- Worker for `splitBySub`, structurally recursive on a fuel argument that
never runs out when initialised to the string length. -/
def splitBySubAux (sep : Str) : Nat → Str → Str → List Str
  | _, [], cur => [cur.reverse]
  | 0, s, cur => [cur.reverse ++ s]
  | fuel + 1, c :: rest, cur =>
    if sep ≠ [] ∧ leadsWith sep (c :: rest) then
      cur.reverse :: splitBySubAux sep fuel ((c :: rest).drop sep.length) []
    else splitBySubAux sep fuel rest (c :: cur)

/-- Python `str.split(sep)` for a non-empty separator string: splits on every
occurrence. -/
def splitBySub (s : Str) (sep : Str) : List Str := splitBySubAux sep s.length s []

/-- Python `str.split(sep)` for a one-character separator. -/
def splitByChar (s : Str) (sep : Char) : List Str := splitBySub s [sep]

/-- Python `str.split(sep, 1)` for a non-empty separator: `none` when the
separator is absent (in the script that case surfaces as an unpacking
`ValueError`). -/
def splitOnceSub (s : Str) (sep : Str) : Option (Str × Str) :=
  match s with
  | [] => none
  | c :: rest =>
    if sep ≠ [] ∧ leadsWith sep (c :: rest) then some ([], (c :: rest).drop sep.length)
    else (splitOnceSub rest sep).map fun p => (c :: p.1, p.2)

/-- Python `str.partition(sep)` for a one-character separator: returns the
part before the first occurrence, whether the separator occurred, and the
part after it. -/
def partitionChar (s : Str) (sep : Char) : Str × Bool × Str :=
  match s with
  | [] => ([], false, [])
  | c :: rest =>
    if c = sep then ([], true, rest)
    else
      let (a, f, b) := partitionChar rest sep
      (c :: a, f, b)

/-- Python `str.rpartition(sep)` for a one-character separator: splits at the
last occurrence. -/
def rpartitionChar (s : Str) (sep : Char) : Str × Bool × Str :=
  let (a, f, b) := partitionChar s.reverse sep
  if f then (b.reverse, true, a.reverse) else ([], false, s)

/-- Python `str.lstrip(chars)`. -/
def lstripSet (s : Str) (set : List Char) : Str := s.dropWhile (· ∈ set)

/-- Python `str.strip(chars)`. -/
def stripSet (s : Str) (set : List Char) : Str :=
  ((s.dropWhile (· ∈ set)).reverse.dropWhile (· ∈ set)).reverse

/-- Worker for `natDigits`: fuel-driven division loop (fuel `n` suffices). -/
def natDigitsAux : Nat → Nat → Str
  | 0, n => [Char.ofNat (48 + n % 10)]
  | fuel + 1, n =>
    if n < 10 then [Char.ofNat (48 + n)]
    else natDigitsAux fuel (n / 10) ++ [Char.ofNat (48 + n % 10)]

/-- Decimal digits of a natural number (auxiliary for rendering integers). -/
def natDigits (n : Nat) : Str := natDigitsAux n n

/-- Python `str(int)`: decimal rendering of an integer. -/
def intToStr (n : Int) : Str :=
  if n < 0 then '-' :: natDigits n.natAbs else natDigits n.natAbs

/-- ASCII decimal-digit test (Python `str.isdigit` restricted to ASCII,
which is exactly what the `isdigit() and isascii()` guard in `urllib`'s
port parsing checks). -/
def isAsciiDigit (c : Char) : Bool := 48 ≤ c.toNat && c.toNat ≤ 57

/-- Value of an ASCII hex digit, if it is one. -/
def hexDigitVal (c : Char) : Option Nat :=
  if 48 ≤ c.toNat ∧ c.toNat ≤ 57 then some (c.toNat - 48)
  else if 97 ≤ c.toNat ∧ c.toNat ≤ 102 then some (c.toNat - 87)
  else if 65 ≤ c.toNat ∧ c.toNat ≤ 70 then some (c.toNat - 55)
  else none

/-- Parse a non-empty run of ASCII decimal digits as a natural number. -/
def digitsToNat (s : Str) : Nat := s.foldl (fun acc c => acc * 10 + (c.toNat - 48)) 0

/-! ### `base64.b64decode` (lenient mode, as `binascii.a2b_base64` with
`strict_mode=False`): characters outside the alphabet are skipped, a pad
character closes the stream once enough padding has been seen for the
current quad, and a leftover partial quad at the end of input raises
`binascii.Error`. -/

/-- Six-bit value of a standard-alphabet base64 character. -/
def b64Val (c : Char) : Option Nat :=
  if 65 ≤ c.toNat ∧ c.toNat ≤ 90 then some (c.toNat - 65)
  else if 97 ≤ c.toNat ∧ c.toNat ≤ 122 then some (c.toNat - 71)
  else if 48 ≤ c.toNat ∧ c.toNat ≤ 57 then some (c.toNat + 4)
  else if c = '+' then some 62
  else if c = '/' then some 63
  else none

/-- One step of the `a2b_base64` loop: state is (quad position, pending bits,
pad count, output bytes so far). `none` models `binascii.Error` at the end of
input. -/
def a2bAux : Str → Nat → Nat → Nat → List Nat → Option (List Nat)
  | [], quadPos, _, _, acc => if quadPos = 0 then some acc else none
  | c :: rest, quadPos, leftchar, pads, acc =>
    if c = '=' then
      if 2 ≤ quadPos then
        if 4 ≤ quadPos + (pads + 1) then some acc
        else a2bAux rest quadPos leftchar (pads + 1) acc
      else a2bAux rest quadPos leftchar pads acc
    else
      match b64Val c with
      | none => a2bAux rest quadPos leftchar pads acc
      | some d =>
        match quadPos with
        | 0 => a2bAux rest 1 d 0 acc
        | 1 => a2bAux rest 2 (d % 16) 0 (acc ++ [leftchar * 4 + d / 16])
        | 2 => a2bAux rest 3 (d % 4) 0 (acc ++ [leftchar * 16 + d / 4])
        | _ => a2bAux rest 0 0 0 (acc ++ [leftchar * 64 + d])

/-- `base64.b64decode` in its default lenient mode. -/
def b64decode (s : Str) : Option (List Nat) := a2bAux s 0 0 0 []

/-- `safe_b64decode` from the script: normalize the URL-safe alphabet to the
standard one, restore padding from the (pre-filtering) length, then decode. -/
def safe_b64decode (s : Str) : Option (List Nat) :=
  let s := replaceChar (replaceChar s '-' '+') '_' '/'
  let padding := s.length % 4
  let s := if padding ≠ 0 then s ++ List.replicate (4 - padding) '=' else s
  b64decode s

/-! ### UTF-8 -/

/-- Strict UTF-8 decoding of a byte sequence (Python `bytes.decode('utf-8')`
with default strict error handling): rejects overlong forms, surrogates and
out-of-range code points. -/
def utf8Decode : List Nat → Option Str
  | [] => some []
  | b :: rest =>
    if b < 0x80 then (utf8Decode rest).map (Char.ofNat b :: ·)
    else if 0xC2 ≤ b ∧ b ≤ 0xDF then
      match rest with
      | b2 :: rest2 =>
        if 0x80 ≤ b2 ∧ b2 ≤ 0xBF then
          (utf8Decode rest2).map (Char.ofNat ((b - 0xC0) * 64 + (b2 - 0x80)) :: ·)
        else none
      | [] => none
    else if 0xE0 ≤ b ∧ b ≤ 0xEF then
      match rest with
      | b2 :: b3 :: rest3 =>
        let lo2 := if b = 0xE0 then 0xA0 else 0x80
        let hi2 := if b = 0xED then 0x9F else 0xBF
        if (lo2 ≤ b2 ∧ b2 ≤ hi2) ∧ (0x80 ≤ b3 ∧ b3 ≤ 0xBF) then
          (utf8Decode rest3).map
            (Char.ofNat ((b - 0xE0) * 4096 + (b2 - 0x80) * 64 + (b3 - 0x80)) :: ·)
        else none
      | _ => none
    else if 0xF0 ≤ b ∧ b ≤ 0xF4 then
      match rest with
      | b2 :: b3 :: b4 :: rest4 =>
        let lo2 := if b = 0xF0 then 0x90 else 0x80
        let hi2 := if b = 0xF4 then 0x8F else 0xBF
        if (lo2 ≤ b2 ∧ b2 ≤ hi2) ∧ (0x80 ≤ b3 ∧ b3 ≤ 0xBF) ∧ (0x80 ≤ b4 ∧ b4 ≤ 0xBF) then
          (utf8Decode rest4).map
            (Char.ofNat
              ((b - 0xF0) * 262144 + (b2 - 0x80) * 4096 + (b3 - 0x80) * 64 + (b4 - 0x80)) :: ·)
        else none
      | _ => none
    else none

/-- UTF-8 encoding of one character. -/
def utf8EncodeChar (c : Char) : List Nat :=
  let n := c.toNat
  if n < 0x80 then [n]
  else if n < 0x800 then [0xC0 + n / 64, 0x80 + n % 64]
  else if n < 0x10000 then [0xE0 + n / 4096, 0x80 + n / 64 % 64, 0x80 + n % 64]
  else [0xF0 + n / 262144, 0x80 + n / 4096 % 64, 0x80 + n / 64 % 64, 0x80 + n % 64]

/-- UTF-8 encoding of a string (Python `str.encode('utf-8')`). -/
def utf8Encode (s : Str) : List Nat := s.flatMap utf8EncodeChar

/-! ### `urllib.parse.unquote` -/

/-- Percent-decoding of the bytes of one ASCII chunk: a `%` followed by two
hex digits becomes that byte, anything else is passed through as its own
byte (`urllib.parse.unquote_to_bytes`). -/
def unquoteBytes : Str → List Nat
  | [] => []
  | '%' :: a :: b :: rest =>
    match hexDigitVal a, hexDigitVal b with
    | some ha, some hb => (ha * 16 + hb) :: unquoteBytes rest
    | _, _ => '%'.toNat :: unquoteBytes (a :: b :: rest)
  | c :: rest => utf8EncodeChar c ++ unquoteBytes rest

/-- Lenient UTF-8 decoding with `errors='replace'`: an undecodable byte is
replaced with U+FFFD and decoding resumes at the next byte.  (The exact
resynchronisation width of CPython's replacement handler differs on some
multi-byte prefixes; the script only ever sees well-formed or percent-free
data, where the two agree.) -/
def utf8DecodeReplace : List Nat → Str
  | [] => []
  | b :: rest =>
    if b < 0x80 then Char.ofNat b :: utf8DecodeReplace rest
    else if 0xC2 ≤ b ∧ b ≤ 0xDF then
      match rest with
      | b2 :: rest2 =>
        if 0x80 ≤ b2 ∧ b2 ≤ 0xBF then
          Char.ofNat ((b - 0xC0) * 64 + (b2 - 0x80)) :: utf8DecodeReplace rest2
        else Char.ofNat 0xFFFD :: utf8DecodeReplace (b2 :: rest2)
      | [] => [Char.ofNat 0xFFFD]
    else if 0xE0 ≤ b ∧ b ≤ 0xEF then
      match rest with
      | b2 :: b3 :: rest3 =>
        let lo2 := if b = 0xE0 then 0xA0 else 0x80
        let hi2 := if b = 0xED then 0x9F else 0xBF
        if (lo2 ≤ b2 ∧ b2 ≤ hi2) ∧ (0x80 ≤ b3 ∧ b3 ≤ 0xBF) then
          Char.ofNat ((b - 0xE0) * 4096 + (b2 - 0x80) * 64 + (b3 - 0x80)) ::
            utf8DecodeReplace rest3
        else Char.ofNat 0xFFFD :: utf8DecodeReplace (b2 :: b3 :: rest3)
      | l => Char.ofNat 0xFFFD :: utf8DecodeReplace l
    else if 0xF0 ≤ b ∧ b ≤ 0xF4 then
      match rest with
      | b2 :: b3 :: b4 :: rest4 =>
        let lo2 := if b = 0xF0 then 0x90 else 0x80
        let hi2 := if b = 0xF4 then 0x8F else 0xBF
        if (lo2 ≤ b2 ∧ b2 ≤ hi2) ∧ (0x80 ≤ b3 ∧ b3 ≤ 0xBF) ∧ (0x80 ≤ b4 ∧ b4 ≤ 0xBF) then
          Char.ofNat
              ((b - 0xF0) * 262144 + (b2 - 0x80) * 4096 + (b3 - 0x80) * 64 + (b4 - 0x80)) ::
            utf8DecodeReplace rest4
        else Char.ofNat 0xFFFD :: utf8DecodeReplace (b2 :: b3 :: b4 :: rest4)
      | l => Char.ofNat 0xFFFD :: utf8DecodeReplace l
    else Char.ofNat 0xFFFD :: utf8DecodeReplace rest

/-- `urllib.parse.unquote`: replace `%xx` escapes, decoding the escaped bytes
as UTF-8 with replacement.  A string without `%` is returned unchanged. -/
def unquote (s : Str) : Str :=
  if '%' ∈ s then utf8DecodeReplace (unquoteBytes s) else s

/-! ### `urllib.parse.urlsplit` / `urlparse` (CPython 3.11) and the netloc
accessor properties.  `urlparse` additionally splits `;parameters` off the
path, which the script never reads, so the split result suffices. -/

/-- The five components produced by `urlsplit`. -/
structure SplitResult where
  scheme : Str
  netloc : Str
  path : Str
  query : Str
  fragment : Str
deriving Repr

/-- Valid characters of a URL scheme. -/
def isSchemeChar (c : Char) : Bool :=
  (65 ≤ c.toNat && c.toNat ≤ 90) || (97 ≤ c.toNat && c.toNat ≤ 122) ||
  (48 ≤ c.toNat && c.toNat ≤ 57) || c = '+' || c = '-' || c = '.'

/-- ASCII letter test (`str.isascii() and str.isalpha()` on one char). -/
def isAsciiAlpha (c : Char) : Bool :=
  (65 ≤ c.toNat && c.toNat ≤ 90) || (97 ≤ c.toNat && c.toNat ≤ 122)

/-- The WHATWG C0-control-or-space set that `urlsplit` strips from the left
of its input. -/
def c0ControlOrSpace : List Char := (List.range 33).map Char.ofNat

/-- `urllib.parse.urlsplit`.  Returns `none` where CPython raises
`ValueError`; a netloc containing brackets is modelled as failing the
bracketed-host validation (the script never receives IPv6 hosts). -/
def urlsplit (url : Str) : Option SplitResult :=
  let url := lstripSet url c0ControlOrSpace
  let url := removeChar (removeChar (removeChar url '\t') '\r') '\n'
  let (scheme, url) :=
    match partitionChar url ':' with
    | (before, true, after) =>
      if before ≠ [] ∧ isAsciiAlpha before.headI ∧ before.all isSchemeChar then
        (pyLower before, after)
      else ([], url)
    | (_, false, _) => ([], url)
  if leadsWith (S "//") url then
    let netloc := (url.drop 2).takeWhile fun c => c ∉ ['/', '?', '#']
    let url := (url.drop 2).dropWhile fun c => c ∉ ['/', '?', '#']
    if '[' ∈ netloc ∨ ']' ∈ netloc then none
    else
      let (url, fragment) :=
        match partitionChar url '#' with
        | (before, true, after) => (before, after)
        | (_, false, _) => (url, [])
      let (url, query) :=
        match partitionChar url '?' with
        | (before, true, after) => (before, after)
        | (_, false, _) => (url, [])
      some ⟨scheme, netloc, url, query, fragment⟩
  else
    let (url, fragment) :=
      match partitionChar url '#' with
      | (before, true, after) => (before, after)
      | (_, false, _) => (url, [])
    let (url, query) :=
      match partitionChar url '?' with
      | (before, true, after) => (before, after)
      | (_, false, _) => (url, [])
    some ⟨scheme, [], url, query, fragment⟩

/-- The `_userinfo` property: `(username, password)` of the netloc. -/
def SplitResult.userinfo (p : SplitResult) : Option Str × Option Str :=
  let (ui, haveInfo, _) := rpartitionChar p.netloc '@'
  if haveInfo then
    match partitionChar ui ':' with
    | (username, true, password) => (some username, some password)
    | (username, false, _) => (some username, none)
  else (none, none)

/-- The `username` property. -/
def SplitResult.username (p : SplitResult) : Option Str := p.userinfo.1

/-- The `_hostinfo` property: `(hostname, port-string)` of the netloc
(bracketed IPv6 hosts are rejected earlier in `urlsplit`). -/
def SplitResult.hostinfo (p : SplitResult) : Str × Option Str :=
  let (_, _, hostinfo) := rpartitionChar p.netloc '@'
  let (hostname, _, port) := partitionChar hostinfo ':'
  (hostname, if port = [] then none else some port)

/-- The `hostname` property: lower-cased host, `None` when empty (the `%`
zone-id split only matters for bracketed IPv6 hosts, which are rejected). -/
def SplitResult.hostname (p : SplitResult) : Option Str :=
  let h := p.hostinfo.1
  if h = [] then none
  else
    let (pre, found, post) := partitionChar h '%'
    if found then some (pyLower pre ++ '%' :: post) else some (pyLower h)

/-- The `port` property: `none` models the `ValueError` CPython raises for a
non-digit or out-of-range port, `some none` is an absent port. -/
def SplitResult.port (p : SplitResult) : Option (Option Nat) :=
  match p.hostinfo.2 with
  | none => some none
  | some ps =>
    if ps.all isAsciiDigit ∧ ps ≠ [] then
      let n := digitsToNat ps
      if n ≤ 65535 then some (some n) else none
    else none

/-! ### `urllib.parse.parse_qs` -/

/-- `urllib.parse.parse_qsl` with default arguments: split the query on `&`,
skip empty chunks, skip chunks without `=` and chunks with an empty value,
replace `+` by space and percent-decode both name and value. -/
def parse_qsl (qs : Str) : List (Str × Str) :=
  if qs = [] then []
  else
    (splitByChar qs '&').foldr
      (fun chunk acc =>
        if chunk = [] then acc
        else
          match partitionChar chunk '=' with
          | (_, false, _) => acc
          | (name, true, value) =>
            if value = [] then acc
            else (unquote (replaceChar name '+' ' '),
                  unquote (replaceChar value '+' ' ')) :: acc)
      []

/-- `urllib.parse.parse_qs` restricted to what the script reads from it:
each distinct name in order of first appearance, paired with its first value
(`v[0]`). -/
def parse_qs_first (qs : Str) : List (Str × Str) :=
  (parse_qsl qs).foldl
    (fun acc kv => if acc.any (fun e => e.1 = kv.1) then acc else acc ++ [kv]) []

/-! ### Python values and dictionaries.  A dict is an insertion-ordered
association list; assignment to an existing key updates the value in place,
assignment to a new key appends.  The scalar universe (`None`, `str`, `int`)
together with nested dicts and lists covers every value this program
constructs or reads from its YAML defaults file. -/

/-- Python values, as used by the script. -/
inductive PyVal : Type where
  | vnone : PyVal
  | vstr : Str → PyVal
  | vint : Int → PyVal
  | vdict : List (Str × PyVal) → PyVal
  | vlist : List PyVal → PyVal
deriving Repr

instance : Inhabited PyVal := ⟨PyVal.vnone⟩

/-- A Python dict with string keys: ordered key/value pairs. -/
abbrev PyObj := List (Str × PyVal)

/-- First binding of a key, if any. -/
def dlookup (d : PyObj) (k : Str) : Option PyVal :=
  match d with
  | [] => none
  | (k', v) :: rest => if k' = k then some v else dlookup rest k

/-- The list of keys. -/
def dkeys (d : PyObj) : List Str := d.map Prod.fst

/-- Python `dict.get(k)`: the value, or `None` when absent. -/
def dget (d : PyObj) (k : Str) : PyVal := (dlookup d k).getD .vnone

/-- Python `dict.get(k, default)`. -/
def dgetD (d : PyObj) (k : Str) (dflt : PyVal) : PyVal := (dlookup d k).getD dflt

/-- Python `d[k] = v`: update in place if present, else append. -/
def dinsert (d : PyObj) (k : Str) (v : PyVal) : PyObj :=
  if k ∈ dkeys d then d.map fun kv => if kv.1 = k then (kv.1, v) else kv
  else d ++ [(k, v)]

/-- Python `dict.setdefault(k, v)` (result dict only). -/
def dsetdefault (d : PyObj) (k : Str) (v : PyVal) : PyObj :=
  if k ∈ dkeys d then d else d ++ [(k, v)]

/-- Python `del d[k]` (no-op when the key is absent). -/
def derase (d : PyObj) (k : Str) : PyObj := d.filter fun kv => kv.1 ≠ k

/-- Build a dict from a sequence of key/value pairs by repeated assignment;
this is how a dict comprehension or `dict.update` handles key collisions. -/
def dictify (items : List (Str × PyVal)) : PyObj :=
  items.foldl (fun acc kv => dinsert acc kv.1 kv.2) []

/-- Python truthiness of a value. -/
def truthy : PyVal → Bool
  | .vnone => false
  | .vstr s => !s.isEmpty
  | .vint n => n != 0
  | .vdict d => !d.isEmpty
  | .vlist l => !l.isEmpty

/-- Is this value Python `None`? -/
def isNone : PyVal → Bool
  | .vnone => true
  | _ => false

/-- Is this value the empty string? (Python `v == ""`). -/
def isEmptyStr : PyVal → Bool
  | .vstr [] => true
  | _ => false

/-- Python `v == s` for a string literal `s`. -/
def valEqStr (v : PyVal) (s : Str) : Bool :=
  match v with
  | .vstr s' => s' = s
  | _ => false

/-- An optional string as a Python value (`None` vs the string). -/
def optStr : Option Str → PyVal
  | some s => .vstr s
  | none => .vnone

/-- An optional integer as a Python value. -/
def optInt : Option Nat → PyVal
  | some n => .vint n
  | none => .vnone

/-- Python `int(v)` for the values that can appear in a `port` slot: an int
is returned unchanged, a string is parsed in base 10 (surrounding ASCII
whitespace, an optional sign and single underscores between digits are
allowed), anything else raises. -/
def pyIntOf : PyVal → Option Int
  | .vint n => some n
  | .vstr s => pyIntStr s
  | _ => none
where
  /-- Python `int(str)` in base 10. -/
  pyIntStr (s : Str) : Option Int :=
    let s := stripSet s (S " \t\n\r\x0b\x0c")
    let (neg, s) :=
      match s with
      | '-' :: rest => (true, rest)
      | '+' :: rest => (false, rest)
      | _ => (false, s)
    if s ≠ [] ∧ digitsUnderscoreOk s then
      let n : Int := digitsToNat (removeChar s '_')
      some (if neg then -n else n)
    else none
  /-- Digits with single underscores strictly between digits. -/
  digitsUnderscoreOk (s : Str) : Bool :=
    s.all (fun c => isAsciiDigit c || c = '_') &&
    isAsciiDigit s.headI && isAsciiDigit s.getLast! &&
    ((s.zip s.tail).all fun p => !(p.1 = '_' && p.2 = '_'))

/-! ### `json.loads`, restricted to the shape of a vmess blob: one flat JSON
object whose values are escape-free strings, integers or `null`.  Any other
JSON input is modelled as failing; at the call site in `parse_proxy_link`
this coincides with the script (malformed JSON raises, and a non-object
result makes the subsequent `.get` raise `AttributeError`, both caught and
turned into a parse failure), except for blobs with nested containers,
floats, booleans or string escapes, where the restriction merely narrows the
inputs the vmess theorems speak about. -/

/-- JSON whitespace removal. -/
def jsonWs (s : Str) : Str := s.dropWhile (· ∈ [' ', '\t', '\n', '\r'])

/-- Body of a JSON string after the opening quote (no escapes). -/
def jsonStringBody : Str → Option (Str × Str)
  | [] => none
  | c :: rest =>
    if c = '"' then some ([], rest)
    else if c = '\\' ∨ c.toNat < 0x20 then none
    else (jsonStringBody rest).map fun p => (c :: p.1, p.2)

/-- A JSON integer literal (optional minus, no leading zeros). -/
def jsonInt (s : Str) : Option (Int × Str) :=
  let (neg, s') := match s with | '-' :: rest => (true, rest) | _ => (false, s)
  let digits := s'.takeWhile isAsciiDigit
  let rest := s'.dropWhile isAsciiDigit
  if digits = [] then none
  else if digits.length > 1 ∧ digits.headI = '0' then none
  else
    let n : Int := digitsToNat digits
    some (if neg then -n else n, rest)

/-- One scalar member value of the restricted JSON object. -/
def jsonScalar (s : Str) : Option (PyVal × Str) :=
  match s with
  | '"' :: rest => (jsonStringBody rest).map fun p => (.vstr p.1, p.2)
  | s =>
    if leadsWith (S "null") s then some (.vnone, s.drop 4)
    else (jsonInt s).map fun p => (.vint p.1, p.2)

/-- Members of the restricted JSON object, after the opening brace. -/
def jsonMembers (s : Str) (fuel : Nat) : Option (List (Str × PyVal) × Str) :=
  match fuel with
  | 0 => none
  | fuel + 1 =>
    match jsonWs s with
    | '"' :: rest => do
      let (key, rest) ← jsonStringBody rest
      let rest := jsonWs rest
      match rest with
      | ':' :: rest => do
        let (v, rest) ← jsonScalar (jsonWs rest)
        let rest := jsonWs rest
        match rest with
        | ',' :: rest => do
          let (tailMembers, rest) ← jsonMembers rest fuel
          pure ((key, v) :: tailMembers, rest)
        | '}' :: rest => pure ([(key, v)], rest)
        | _ => none
      | _ => none
    | _ => none

/-- `json.loads` restricted to one flat object (see the section comment).
Duplicate keys follow Python semantics: the last binding wins. -/
def jsonLoadsObj (s : Str) : Option PyObj :=
  match jsonWs s with
  | '{' :: rest =>
    match jsonWs rest with
    | '}' :: rest' => if jsonWs rest' = [] then some [] else none
    | _ => do
      let (members, rest') ← jsonMembers rest s.length
      if jsonWs rest' = [] then pure (dictify members) else none
  | _ => none

/-! ### `parse_proxy_link` -/

/-- Lines 136–138 of the script: if a `port` key is present and truthy,
coerce it to `int`, turning a failed coercion into a parse failure;
otherwise leave the config untouched. -/
def portCheck (config : PyObj) : Option PyObj :=
  if (dlookup config (S "port")).isSome ∧ truthy (dget config (S "port")) then
    match pyIntOf (dget config (S "port")) with
    | some n => some (dinsert config (S "port") (.vint n))
    | none => none
  else some config

/-- `parse_proxy_link` from the script: parse one raw link line into a
config dict, or `none` on any parse failure. -/
def parse_proxy_link (link : Str) : Option PyObj := do
  let p ← urlsplit link
  let queryParams : PyObj :=
    dictify ((parse_qs_first p.query).map fun kv => (pyLower kv.1, PyVal.vstr kv.2))
  let config : PyObj := [(S "protocol", .vstr p.scheme), (S "remarks", .vstr (unquote p.fragment))]
  let config := queryParams.foldl (fun acc kv => dinsert acc kv.1 kv.2) config
  if p.scheme = S "vless" ∨ p.scheme = S "trojan" then do
    let port ← p.port
    let config := dinsert config (S "server") (optStr p.hostname)
    let config := dinsert config (S "port") (optInt port)
    let config :=
      if p.scheme = S "vless" then dinsert config (S "uuid") (optStr p.username)
      else dinsert config (S "password") (optStr p.username)
    portCheck config
  else if p.scheme = S "vmess" then do
    let bytes ← safe_b64decode (link.drop 8)
    let jsonStr ← utf8Decode bytes
    let obj ← jsonLoadsObj jsonStr
    let port ← pyIntOf (dgetD obj (S "port") (.vint 0))
    portCheck
      [(S "protocol", .vstr (S "vmess")),
       (S "remarks", dgetD obj (S "ps") (.vstr [])),
       (S "server", dgetD obj (S "add") (.vstr [])),
       (S "port", .vint port),
       (S "uuid", dgetD obj (S "id") (.vstr [])),
       (S "alterId", dgetD obj (S "aid") (.vstr (S "0"))),
       (S "security", dgetD obj (S "scy") (dgetD obj (S "security") (.vstr (S "auto")))),
       (S "type", dgetD obj (S "net") (.vstr (S "tcp"))),
       (S "host", dgetD obj (S "host") (.vstr [])),
       (S "path", dgetD obj (S "path") (.vstr [])),
       (S "tls", dgetD obj (S "tls") (.vstr (S "none"))),
       (S "sni", dgetD obj (S "sni") (dgetD obj (S "host") (.vstr [])))]
  else if p.scheme = S "ss" then do
    let port ← p.port
    let config := dinsert config (S "server") (optStr p.hostname)
    let config := dinsert config (S "port") (optInt port)
    let userInfoPart ← ((splitBySub link (S "ss://"))[1]?).map
      fun t => (splitByChar t '@').headI
    let userInfo :=
      match (safe_b64decode (unquote userInfoPart)).bind utf8Decode with
      | some u => u
      | none => unquote userInfoPart
    if ':' ∈ userInfo then
      match partitionChar userInfo ':' with
      | (m, _, pw) =>
        portCheck (dinsert (dinsert config (S "method") (.vstr m)) (S "password") (.vstr pw))
    else none
  else if p.scheme = S "ssr" then do
    let b64Part ← (splitBySub link (S "ssr://"))[1]?
    let decodedBytes ← safe_b64decode b64Part
    let decoded ← utf8Decode decodedBytes
    let (mainPart, paramsPart) ← splitOnceSub decoded (S "/?")
    match splitByChar mainPart ':' with
    | [sv, pt, pr, m, o, pwB64] => do
      let ptInt ← pyIntOf (.vstr pt)
      let pwBytes ← safe_b64decode pwB64
      let pw ← utf8Decode pwBytes
      let config := dinsert config (S "server") (.vstr sv)
      let config := dinsert config (S "port") (.vint ptInt)
      let config := dinsert config (S "protocol_ssr") (.vstr pr)
      let config := dinsert config (S "method") (.vstr m)
      let config := dinsert config (S "obfs") (.vstr o)
      let config := dinsert config (S "password") (.vstr pw)
      let config ← (parse_qs_first paramsPart).foldlM
        (fun acc kv => do
          let db ← safe_b64decode kv.2
          let ds ← utf8Decode db
          pure (dinsert acc kv.1 (.vstr ds)))
        config
      portCheck (dinsert config (S "protocol") (.vstr (S "ssr")))
    | _ => none
  else if p.scheme = S "hy2" ∨ p.scheme = S "tuic" then do
    let port ← p.port
    let config := dinsert config (S "password") (optStr p.username)
    let config := dinsert config (S "server") (optStr p.hostname)
    let config := dinsert config (S "port") (optInt port)
    portCheck (dsetdefault config (S "sni") (dgetD queryParams (S "sni") (optStr p.hostname)))
  else none

/-! ### Normalization -/

/-- The opening brace character (written via its code point). -/
def lbrace : Char := Char.ofNat 123

/-- The closing brace character (written via its code point). -/
def rbrace : Char := Char.ofNat 125

/-- `NON_DETERMINISTIC_FIELDS` from the script. -/
def NON_DETERMINISTIC_FIELDS : List Str :=
  [S "timestamp", S "comment", S "remarks", S "fragment", S "ps", S "add_time",
   S "sub", S "tag", S "group"]

/-- Hex digits with single underscores strictly between digits (the digit
grammar accepted by Python `int(s, 16)` after sign and prefix handling). -/
def hexUnderscoreOk (s : Str) : Bool :=
  s.all (fun c => (hexDigitVal c).isSome || c = '_') &&
  (hexDigitVal s.headI).isSome && (hexDigitVal s.getLast!).isSome &&
  ((s.zip s.tail).all fun p => !(p.1 = '_' && p.2 = '_'))

/-- Does Python `int(s, 16)` succeed? (ASCII fragment: surrounding
whitespace, an optional sign, an optional `0x`/`0X` prefix — possibly
followed by one underscore — then hex digits with single underscores.) -/
def pyIntHex16Ok (s : Str) : Bool :=
  let t := stripSet s (S " \t\n\r\x0b\x0c")
  let t := match t with | '-' :: r => r | '+' :: r => r | _ => t
  if leadsWith (S "0x") t ∨ leadsWith (S "0X") t then
    let u := t.drop 2
    hexUnderscoreOk u || (match u with | '_' :: r => hexUnderscoreOk r | _ => false)
  else hexUnderscoreOk t

/-- Does `uuid.UUID(s)` succeed?  Mirrors the `hex` branch of
`uuid.UUID.__init__`: drop every `urn:` and `uuid:` substring, strip curly
braces from both ends, remove all hyphens, then require exactly 32
characters forming a valid base-16 integer literal. -/
def pyUuidValid (s : Str) : Bool :=
  let t := removeSub (removeSub s (S "urn:")) (S "uuid:")
  let t := stripSet t [lbrace, rbrace]
  let t := removeChar t '-'
  t.length = 32 && pyIntHex16Ok t

mutual
/-- The inner `recursive_remove_and_lowercase` of `normalize_config`: on
dicts, keep an item only if its lower-cased key is not a noise field and its
value is neither `None` nor the empty string, lower-case the kept key and
recurse into the value (the dict comprehension resolves key collisions by
later-wins, hence `dictify`); on strings, lower-case exactly the strings
that parse as UUIDs. -/
def rrlVal : PyVal → PyVal
  | .vnone => .vnone
  | .vint n => .vint n
  | .vstr s => if pyUuidValid s then .vstr (pyLower s) else .vstr s
  | .vdict d => .vdict (dictify (rrlItems d))
  | .vlist l => .vlist (rrlList l)
termination_by structural v => v

/-- Item-wise filter/map part of `recursive_remove_and_lowercase`. -/
def rrlItems : List (Str × PyVal) → List (Str × PyVal)
  | [] => []
  | (k, v) :: rest =>
    if pyLower k ∉ NON_DETERMINISTIC_FIELDS ∧ isNone v = false ∧ isEmptyStr v = false then
      (pyLower k, rrlVal v) :: rrlItems rest
    else rrlItems rest
termination_by structural l => l

/-- Element-wise recursion of `recursive_remove_and_lowercase` on lists. -/
def rrlList : List PyVal → List PyVal
  | [] => []
  | v :: rest => rrlVal v :: rrlList rest
termination_by structural l => l
end

/-- Python string comparison `s <= t` (code-point lexicographic). -/
def strLe : Str → Str → Bool
  | [], _ => true
  | _ :: _, [] => false
  | a :: as, b :: bs => if a = b then strLe as bs else decide (a < b)

/-- The order used on dict items when modelling `sorted(data.keys())`:
compare keys with Python string comparison. -/
def keyLE (a b : Str × PyVal) : Prop := strLe a.1 b.1 = true

instance : DecidableRel keyLE := fun a b => instDecidableEqBool (strLe a.1 b.1) true

theorem strLe_total (a b : Str) : strLe a b = true ∨ strLe b a = true := by
  induction a generalizing b with
  | nil => left; rfl
  | cons x xs ih =>
    cases b with
    | nil => right; rfl
    | cons y ys =>
      by_cases hxy : x = y
      · subst hxy
        simp only [strLe, if_pos rfl]
        exact ih ys
      · rcases lt_trichotomy x y with h | h | h
        · left; simp [strLe, hxy, h]
        · exact absurd h hxy
        · right
          have hyx : y ≠ x := fun e => hxy e.symm
          simp [strLe, hyx, h]

theorem strLe_trans {a b c : Str} (h1 : strLe a b = true) (h2 : strLe b c = true) :
    strLe a c = true := by
  induction a generalizing b c with
  | nil => rfl
  | cons x xs ih =>
    cases b with
    | nil => simp [strLe] at h1
    | cons y ys =>
      cases c with
      | nil => simp [strLe] at h2
      | cons z zs =>
        by_cases hxy : x = y
        · subst hxy
          simp only [strLe, if_pos rfl] at h1
          by_cases hyz : x = z
          · subst hyz
            simp only [strLe, if_pos rfl] at h2 ⊢
            exact ih h1 h2
          · simp only [strLe, if_neg hyz] at h2 ⊢
            exact h2
        · simp only [strLe, if_neg hxy] at h1
          have hx : x < y := of_decide_eq_true h1
          by_cases hyz : y = z
          · subst hyz
            simp [strLe, hxy, hx]
          · simp only [strLe, if_neg hyz] at h2
            have hy : y < z := of_decide_eq_true h2
            have hxz : x < z := lt_trans hx hy
            have : x ≠ z := ne_of_lt hxz
            simp [strLe, this, hxz]

instance : IsTotal (Str × PyVal) keyLE := ⟨fun a b => strLe_total a.1 b.1⟩

instance : IsTrans (Str × PyVal) keyLE := ⟨fun _ _ _ => strLe_trans⟩

mutual
/-- `sort_dict_keys` from the script: recursively sort every dict by key.
The script rebuilds each dict from `sorted(data.keys())`; on Python dicts
(whose keys are unique) that is the same as stably sorting the items by key
after recursing into the values, which is how it is modelled here. -/
def sortVal : PyVal → PyVal
  | .vnone => .vnone
  | .vint n => .vint n
  | .vstr s => .vstr s
  | .vdict d => .vdict (List.insertionSort keyLE (sortItems d))
  | .vlist l => .vlist (sortList l)
termination_by structural v => v

/-- Value-wise recursion of `sort_dict_keys` over dict items. -/
def sortItems : List (Str × PyVal) → List (Str × PyVal)
  | [] => []
  | (k, v) :: rest => (k, sortVal v) :: sortItems rest
termination_by structural l => l

/-- Element-wise recursion of `sort_dict_keys` over lists. -/
def sortList : List PyVal → List PyVal
  | [] => []
  | v :: rest => sortVal v :: sortList rest
termination_by structural l => l
end

/-- `sort_dict_keys` applied to a top-level dict. -/
def sortObjTop (d : PyObj) : PyObj := List.insertionSort keyLE (sortItems d)

/-- The protocol-defaults table: a dict from protocol tag to a dict of
default fields.  (This is the shape `normalize_config` requires: a YAML file
of any other shape makes `defaults[protocol].items()` raise, which is
outside the normal-operation model; see `load_defaults` below for the
loading behaviour itself.) -/
abbrev Defaults := List (Str × PyObj)

/-- Key lookup in the defaults table. -/
def tlookup (d : Defaults) (k : Str) : Option PyObj :=
  match d with
  | [] => none
  | (k', v) :: rest => if k' = k then some v else tlookup rest k

/-- `normalize_config` from the script: recursively remove noise fields and
lower-case keys, backfill protocol defaults with `setdefault`, and sort all
keys.  The defaults branch runs only when the normalized `protocol` value is
a truthy string that is a key of the table (`if protocol and protocol in
defaults`). -/
def normalize_config (config : PyObj) (defaults : Defaults) : PyObj :=
  let normalized := dictify (rrlItems config)
  let normalized :=
    match dget normalized (S "protocol") with
    | .vstr s =>
      if s ≠ [] then
        match tlookup defaults s with
        | some tbl => tbl.foldl (fun acc kv => dsetdefault acc kv.1 kv.2) normalized
        | none => normalized
      else normalized
    | _ => normalized
  sortObjTop normalized

/-! ### Fingerprinting -/

/-- `get_identity_fields` from the script: start from `server`/`port`, add
the protocol-specific identity fields, then keep only the keys whose value
is not `None`. -/
def get_identity_fields (config : PyObj) : PyObj :=
  let protocol := dget config (S "protocol")
  let identity : PyObj :=
    [(S "server", dget config (S "server")), (S "port", dget config (S "port"))]
  let identity :=
    if valEqStr protocol (S "vless") || valEqStr protocol (S "vmess") then
      let identity := dinsert identity (S "uuid") (dget config (S "uuid"))
      let identity := dinsert identity (S "type") (dget config (S "type"))
      let identity := dinsert identity (S "security") (dget config (S "security"))
      let identity :=
        if valEqStr (dget config (S "type")) (S "ws") ||
           valEqStr (dget config (S "type")) (S "grpc") ||
           valEqStr (dget config (S "type")) (S "http") then
          dinsert (dinsert identity (S "host") (dget config (S "host")))
            (S "path") (dget config (S "path"))
        else identity
      if valEqStr (dget config (S "security")) (S "tls") ||
         valEqStr (dget config (S "tls")) (S "tls") then
        dinsert identity (S "sni") (dget config (S "sni"))
      else identity
    else if valEqStr protocol (S "trojan") then
      dinsert (dinsert identity (S "password") (dget config (S "password")))
        (S "sni") (dget config (S "sni"))
    else if valEqStr protocol (S "ss") then
      dinsert (dinsert (dinsert identity (S "method") (dget config (S "method")))
        (S "password") (dget config (S "password"))) (S "plugin") (dget config (S "plugin"))
    else if valEqStr protocol (S "ssr") then
      dinsert (dinsert (dinsert (dinsert identity (S "method") (dget config (S "method")))
        (S "password") (dget config (S "password")))
        (S "protocol_ssr") (dget config (S "protocol_ssr")))
        (S "obfs") (dget config (S "obfs"))
    else if valEqStr protocol (S "hy2") || valEqStr protocol (S "tuic") then
      dinsert (dinsert (dinsert identity (S "password") (dget config (S "password")))
        (S "sni") (dget config (S "sni")))
        (S "insecure") (dgetD config (S "insecure") (dget config (S "allowinsecure")))
    else identity
  identity.filter fun kv => isNone kv.2 = false

/-- Lower-case hex digit for a value below 16. -/
def hexChar (n : Nat) : Char :=
  if n < 10 then Char.ofNat (48 + n) else Char.ofNat (87 + n)

/-- Four-digit lower-case hex rendering (for `\uXXXX` escapes). -/
def toHex4 (n : Nat) : Str :=
  [hexChar (n / 4096 % 16), hexChar (n / 256 % 16), hexChar (n / 16 % 16), hexChar (n % 16)]

/-- `json.dumps` escaping of one character with `ensure_ascii=True`:
printable ASCII other than quote and backslash is literal, the usual
two-character escapes apply, and everything else becomes `\uXXXX` (with a
surrogate pair beyond the BMP). -/
def jsonEscChar (c : Char) : Str :=
  if c = '"' then ['\\', '"']
  else if c = '\\' then ['\\', '\\']
  else if c = Char.ofNat 8 then S "\\b"
  else if c = Char.ofNat 9 then S "\\t"
  else if c = Char.ofNat 10 then S "\\n"
  else if c = Char.ofNat 12 then S "\\f"
  else if c = Char.ofNat 13 then S "\\r"
  else if 32 ≤ c.toNat ∧ c.toNat ≤ 126 then [c]
  else if c.toNat < 65536 then '\\' :: 'u' :: toHex4 c.toNat
  else
    let n := c.toNat - 65536
    '\\' :: 'u' :: toHex4 (55296 + n / 1024) ++ '\\' :: 'u' :: toHex4 (56320 + n % 1024)

/-- A JSON string literal for `s`. -/
def jsonQuote (s : Str) : Str := '"' :: s.flatMap jsonEscChar ++ ['"']

mutual
/-- `json.dumps(v, separators=(',', ':'))` for the values this program
hashes.  The script always serializes `sort_dict_keys(identity)` with
`sort_keys=True`; serializing the recursively key-sorted value in dict
order renders exactly the same string, so no extra sort is applied here. -/
def jsonVal : PyVal → Str
  | .vnone => S "null"
  | .vint n => intToStr n
  | .vstr s => jsonQuote s
  | .vdict d => lbrace :: jsonItems d ++ [rbrace]
  | .vlist l => '[' :: jsonArr l ++ [']']
termination_by structural v => v

/-- Comma-joined `"key":value` renderings of dict items. -/
def jsonItems : List (Str × PyVal) → Str
  | [] => []
  | [(k, v)] => jsonQuote k ++ ':' :: jsonVal v
  | (k, v) :: rest => jsonQuote k ++ ':' :: jsonVal v ++ ',' :: jsonItems rest
termination_by structural l => l

/-- Comma-joined renderings of list elements. -/
def jsonArr : List PyVal → Str
  | [] => []
  | [v] => jsonVal v
  | v :: rest => jsonVal v ++ ',' :: jsonArr rest
termination_by structural l => l
end

/-! ### SHA-256 (`hashlib.sha256(...).hexdigest()`) -/

/-- Truncate to 32 bits. -/
def m32 (n : Nat) : Nat := n % 4294967296

/-- 32-bit right rotation. -/
def rotr (x n : Nat) : Nat := m32 ((x >>> n) ||| (x <<< (32 - n)))

/-- The SHA-256 round constants. -/
def sha256K : List Nat :=
  [1116352408, 1899447441, 3049323471, 3921009573, 961987163,
   1508970993, 2453635748, 2870763221, 3624381080, 310598401,
   607225278, 1426881987, 1925078388, 2162078206, 2614888103,
   3248222580, 3835390401, 4022224774, 264347078, 604807628,
   770255983, 1249150122, 1555081692, 1996064986, 2554220882,
   2821834349, 2952996808, 3210313671, 3336571891, 3584528711,
   113926993, 338241895, 666307205, 773529912, 1294757372,
   1396182291, 1695183700, 1986661051, 2177026350, 2456956037,
   2730485921, 2820302411, 3259730800, 3345764771, 3516065817,
   3600352804, 4094571909, 275423344, 430227734, 506948616,
   659060556, 883997877, 958139571, 1322822218, 1537002063,
   1747873779, 1955562222, 2024104815, 2227730452, 2361852424,
   2428436474, 2756734187, 3204031479, 3329325298]

/-- SHA-256 message padding: append `0x80`, zeros and the 64-bit big-endian
bit length, up to a multiple of 64 bytes. -/
def sha256Pad (msg : List Nat) : List Nat :=
  let len := msg.length
  let zeros := (55 + 64 - len % 64) % 64
  let bitLen := len * 8
  msg ++ 0x80 :: List.replicate zeros 0 ++
    [bitLen / 72057594037927936 % 256, bitLen / 281474976710656 % 256,
     bitLen / 1099511627776 % 256, bitLen / 4294967296 % 256,
     bitLen / 16777216 % 256, bitLen / 65536 % 256, bitLen / 256 % 256, bitLen % 256]

/-- Worker for `chunks64`: fuel-driven (the length is enough fuel). -/
def chunks64Aux : Nat → List Nat → List (List Nat)
  | _, [] => []
  | 0, l => [l]
  | fuel + 1, c :: rest => (c :: rest).take 64 :: chunks64Aux fuel ((c :: rest).drop 64)

/-- Split the padded message into 64-byte blocks. -/
def chunks64 (l : List Nat) : List (List Nat) := chunks64Aux l.length l

/-- Big-endian 32-bit words of one 64-byte block. -/
def blockWords (block : List Nat) : List Nat :=
  match block with
  | b0 :: b1 :: b2 :: b3 :: rest =>
    (b0 * 16777216 + b1 * 65536 + b2 * 256 + b3) :: blockWords rest
  | _ => []

/-- Extend 16 message words to the 64-entry message schedule. -/
def sha256Schedule (ws : List Nat) : List Nat :=
  (List.range 48).foldl
    (fun acc _ =>
      let n := acc.length
      let w15 := acc.getD (n - 15) 0
      let w2 := acc.getD (n - 2) 0
      let w16 := acc.getD (n - 16) 0
      let w7 := acc.getD (n - 7) 0
      let s0 := (rotr w15 7) ^^^ (rotr w15 18) ^^^ (w15 >>> 3)
      let s1 := (rotr w2 17) ^^^ (rotr w2 19) ^^^ (w2 >>> 10)
      acc ++ [m32 (w16 + s0 + w7 + s1)])
    ws

/-- One SHA-256 compression round. -/
def sha256Round (st : Nat × Nat × Nat × Nat × Nat × Nat × Nat × Nat) (kw : Nat × Nat) :
    Nat × Nat × Nat × Nat × Nat × Nat × Nat × Nat :=
  let (a, b, c, d, e, f, g, h) := st
  let s1 := (rotr e 6) ^^^ (rotr e 11) ^^^ (rotr e 25)
  let ch := (e &&& f) ^^^ ((4294967295 - e) &&& g)
  let t1 := m32 (h + s1 + ch + kw.1 + kw.2)
  let s0 := (rotr a 2) ^^^ (rotr a 13) ^^^ (rotr a 22)
  let mj := (a &&& b) ^^^ (a &&& c) ^^^ (b &&& c)
  let t2 := m32 (s0 + mj)
  (m32 (t1 + t2), a, b, c, m32 (d + t1), e, f, g)

/-- Process one block into the running hash state. -/
def sha256Block (hs : List Nat) (block : List Nat) : List Nat :=
  let w := sha256Schedule (blockWords block)
  let init :=
    (hs.getD 0 0, hs.getD 1 0, hs.getD 2 0, hs.getD 3 0,
     hs.getD 4 0, hs.getD 5 0, hs.getD 6 0, hs.getD 7 0)
  let (a, b, c, d, e, f, g, h) := (sha256K.zip w).foldl sha256Round init
  [m32 (hs.getD 0 0 + a), m32 (hs.getD 1 0 + b), m32 (hs.getD 2 0 + c),
   m32 (hs.getD 3 0 + d), m32 (hs.getD 4 0 + e), m32 (hs.getD 5 0 + f),
   m32 (hs.getD 6 0 + g), m32 (hs.getD 7 0 + h)]

/-- Eight-digit lower-case hex rendering of a 32-bit word. -/
def toHex8 (n : Nat) : Str := toHex4 (n / 65536) ++ toHex4 (n % 65536)

/-- `hashlib.sha256(bytes).hexdigest()`. -/
def sha256hex (msg : List Nat) : Str :=
  let hs := (chunks64 (sha256Pad msg)).foldl sha256Block
    [1779033703, 3144134277, 1013904242, 2773480762,
     1359893119, 2600822924, 528734635, 1541459225]
  hs.flatMap toHex8

/-- `fingerprint_config` from the script: serialize the key-sorted identity
projection as compact JSON and hash it. -/
def fingerprint_config (config : PyObj) : Str :=
  sha256hex (utf8Encode (jsonVal (sortVal (.vdict (get_identity_fields config)))))

/-! ### The per-source deduplication loop of `main` -/

/-- One iteration of the dedup loop: parse the raw line; on success,
normalize, fingerprint, and record the raw line under its fingerprint if
that fingerprint is new. -/
def dedupStep (defaults : Defaults) (table : List (Str × Str)) (raw : Str) :
    List (Str × Str) :=
  match parse_proxy_link raw with
  | none => table
  | some parsed =>
    let fp := fingerprint_config (normalize_config parsed defaults)
    if fp ∈ table.map Prod.fst then table else table ++ [(fp, raw)]

/-- The dedup pass `main` runs for one subscription source: fold the lines
through a fresh fingerprint table and emit the kept raw lines
(`list(unique_configs_for_this_url.values())`). -/
def dedupSource (defaults : Defaults) (lines : List Str) : List Str :=
  (lines.foldl (dedupStep defaults) []).map Prod.snd

/-- The per-URL loop of `main`, over the decoded line lists of each source:
each source starts with an empty table (`unique_configs_for_this_url = {}`
inside the loop). -/
def processSources (defaults : Defaults) : List (List Str) → List (List Str)
  | [] => []
  | src :: rest => dedupSource defaults src :: processSources defaults rest

/-! ### `load_defaults` and the fatal/non-fatal behaviour of the run.
The file system and the YAML parser are external to the script; they are
modelled by the possible outcomes at the `open`/`yaml.safe_load` boundary. -/

/-- What `yaml.safe_load` can hand the rest of the run from a readable,
parsable defaults file: a mapping (`table`, the shape `normalize_config`
expects — `{}` is `table []`), YAML `null` (`nullDoc`, the result for an
empty document), or a YAML sequence (`seqDoc`, a parsable non-mapping
document).  Scalar documents (a bare string or number) are outside the
model. -/
inductive LoadedDefaults : Type where
  | table : Defaults → LoadedDefaults
  | nullDoc : LoadedDefaults
  | seqDoc : List PyVal → LoadedDefaults

/-- Outcome of `yaml.safe_load` on a readable file: a parse error, or a
loaded document. -/
inductive YamlOutcome : Type where
  | parseError : YamlOutcome
  | value : LoadedDefaults → YamlOutcome

/-- State of the defaults file on disk. -/
inductive DefaultsFile : Type where
  | absent : DefaultsFile
  | readable : YamlOutcome → DefaultsFile

/-- An uncaught Python exception that terminates the run. -/
inductive PyError : Type where
  | yamlError : PyError
  | typeError : PyError
deriving Repr, DecidableEq

/-- `load_defaults` from the script: only `FileNotFoundError` is caught (and
degrades to `{}`); a YAML parse error propagates, and any parsable document
(`null`, sequence, or mapping) is returned as `yaml.safe_load` produced
it. -/
def load_defaults : DefaultsFile → Except PyError LoadedDefaults
  | .absent => .ok (.table [])
  | .readable .parseError => .error .yamlError
  | .readable (.value v) => .ok v

mutual
/-- Python `==` on the JSON-like value universe: `None`, strings, integers,
lists and dicts compare structurally, values of different shapes compare
unequal, dicts by key lookup (insertion-order-insensitive; dicts with
repeated keys, which Python cannot produce, are compared by lookup of the
first occurrence). -/
def pyEq : PyVal → PyVal → Bool
  | .vnone, .vnone => true
  | .vstr a, .vstr b => a == b
  | .vint a, .vint b => a == b
  | .vlist l1, .vlist l2 => pyEqList l1 l2
  | .vdict d1, .vdict d2 => d1.length == d2.length && pyEqItems d1 d2
  | _, _ => false
termination_by structural a => a

/-- Pair-wise `==` of each entry of the first dict against the second. -/
def pyEqItems : List (Str × PyVal) → List (Str × PyVal) → Bool
  | [], _ => true
  | (k, v) :: rest, d2 =>
    (match dlookup d2 k with
     | some w => pyEq v w
     | none => false) && pyEqItems rest d2
termination_by structural l => l

/-- Element-wise `==` on lists. -/
def pyEqList : List PyVal → List PyVal → Bool
  | [], [] => true
  | a :: as, b :: bs => pyEq a b && pyEqList as bs
  | _, _ => false
termination_by structural l => l
end

/-- `normalize_config` as invoked with whatever `load_defaults` returned.
When the loaded document is `null`, `protocol in defaults` raises
`TypeError` as soon as the normalized protocol is truthy.  When it is a
sequence, `protocol in defaults` is a membership test (`==` against each
element) that raises nothing; if it succeeds, `defaults[protocol].items()`
raises `TypeError` (a list cannot be indexed by the protocol value), and if
it fails the config proceeds with no backfill. -/
def normalizeWithLoaded (d : LoadedDefaults) (config : PyObj) : Except PyError PyObj :=
  match d with
  | .table defaults => .ok (normalize_config config defaults)
  | .nullDoc =>
    let normalized := dictify (rrlItems config)
    if truthy (dget normalized (S "protocol")) then .error .typeError
    else .ok (sortObjTop normalized)
  | .seqDoc l =>
    let normalized := dictify (rrlItems config)
    let protocol := dget normalized (S "protocol")
    if truthy protocol then
      if l.any (pyEq protocol) then .error .typeError
      else .ok (sortObjTop normalized)
    else .ok (sortObjTop normalized)

/-- `dedupStep` under whatever document the defaults file loaded to. -/
def dedupStepE (d : LoadedDefaults) (table : List (Str × Str)) (raw : Str) :
    Except PyError (List (Str × Str)) :=
  match parse_proxy_link raw with
  | none => .ok table
  | some parsed => do
    let normalized ← normalizeWithLoaded d parsed
    let fp := fingerprint_config normalized
    pure (if fp ∈ table.map Prod.fst then table else table ++ [(fp, raw)])

/-- `dedupSource` under whatever document the defaults file loaded to. -/
def dedupSourceE (d : LoadedDefaults) (lines : List Str) : Except PyError (List Str) := do
  let table ← lines.foldlM (dedupStepE d) []
  pure (table.map Prod.snd)

/-- The run after argument handling: load the defaults, then process each
source in order.  An uncaught exception aborts the run (partially written
outputs are not modelled). -/
def runPipeline (df : DefaultsFile) (sources : List (List Str)) :
    Except PyError (List (List Str)) := do
  let d ← load_defaults df
  sources.foldlM (fun acc src => do
    let out ← dedupSourceE d src
    pure (acc ++ [out])) []

/-! ### Specification-side definitions used to state the claims -/

/-- Streaming first-occurrence deduplication, following the specification's
words: keep a line exactly when it parses and its fingerprint differs from
the fingerprint of every earlier kept line, emitting kept lines in first-seen
order. -/
def dedupSpecGo (defaults : Defaults) (seen : List Str) : List Str → List Str
  | [] => []
  | l :: ls =>
    match parse_proxy_link l with
    | none => dedupSpecGo defaults seen ls
    | some c =>
      let fp := fingerprint_config (normalize_config c defaults)
      if fp ∈ seen then dedupSpecGo defaults seen ls
      else l :: dedupSpecGo defaults (seen ++ [fp]) ls

/-- The amended identity projection for vless/vmess, following the amended
claim: `server`, `port`, `uuid`, `type` and also `security`, extended by
`host` and `path` when the type is `ws`, `grpc` or `http`, and by `sni` when
`security` or `tls` equals `"tls"`; fields whose value is `None` are
omitted. -/
def vlessVmessIdentity (config : PyObj) : PyObj :=
  ([(S "server", dget config (S "server")), (S "port", dget config (S "port")),
    (S "uuid", dget config (S "uuid")), (S "type", dget config (S "type")),
    (S "security", dget config (S "security"))] ++
   (if valEqStr (dget config (S "type")) (S "ws") ||
       valEqStr (dget config (S "type")) (S "grpc") ||
       valEqStr (dget config (S "type")) (S "http") then
      [(S "host", dget config (S "host")), (S "path", dget config (S "path"))]
    else []) ++
   (if valEqStr (dget config (S "security")) (S "tls") ||
       valEqStr (dget config (S "tls")) (S "tls") then
      [(S "sni", dget config (S "sni"))]
    else [])).filter fun kv => isNone kv.2 = false

/-- Projection of a string-valued field out of a config (used to state that
two configs differ). -/
def getStrField (d : PyObj) (k : Str) : Option Str :=
  match dlookup d k with
  | some (.vstr s) => some s
  | _ => none

/-- The `ss` scenario credentials in encoding (a): cleartext userinfo. -/
def ssLinkA : Str := S "ss://aes-256-gcm:pass@1.2.3.4:8388"

/-- The same proxy in encoding (b): userinfo is base64 of
`aes-256-gcm:pass`. -/
def ssLinkB : Str := S "ss://YWVzLTI1Ni1nY206cGFzcw==@1.2.3.4:8388"

/-- The same proxy in encoding (c): everything after `ss://` is base64 of
`aes-256-gcm:pass@1.2.3.4:8388`. -/
def ssLinkC : Str := S "ss://YWVzLTI1Ni1nY206cGFzc0AxLjIuMy40OjgzODg="

/-- Encoding (a) of the credentials method `YWI6`, password `Y2Q=`: a
cleartext userinfo that is itself decodable as lenient base64 (to
`ab:cd`). -/
def ssLinkA2 : Str := S "ss://YWI6:Y2Q=@1.2.3.4:8388"

/-- Encoding (b) of the same credentials: userinfo is base64 of
`YWI6:Y2Q=`. -/
def ssLinkB2 : Str := S "ss://WVdJNjpZMlE9@1.2.3.4:8388"

/-- Encoding (c) of the proxy `a:?b@h:80`: the base64 blob `YTo/YkBoOjgw`
contains a `/`, so the link's netloc (hence `server`) is only the blob
prefix `YTo`. -/
def ssLinkD : Str := S "ss://YTo/YkBoOjgw"

/-- Parse a link and normalize it with empty defaults. -/
def normEmpty (l : Str) : Option PyObj :=
  (parse_proxy_link l).map fun c => normalize_config c []

/-- A dict in the model is well-formed when its keys are distinct (as the
keys of every Python dict are). -/
def NodupKeys (d : PyObj) : Prop := (dkeys d).Nodup

/-- Map a function over the values of a dict. -/
def mapVal (f : PyVal → PyVal) (d : PyObj) : PyObj := d.map fun kv => (kv.1, f kv.2)

/-- A value is normal when both normalization passes fix it. -/
def ValNormal (v : PyVal) : Prop := rrlVal v = v ∧ sortVal v = v

/-- A dict entry is normal when a second `recursive_remove_and_lowercase` /
`sort_dict_keys` pass keeps it unchanged: lower-case non-noise key, value
neither `None` nor `""`, and a normal value. -/
def EntryNormal (kv : Str × PyVal) : Prop :=
  pyLower kv.1 = kv.1 ∧ kv.1 ∉ NON_DETERMINISTIC_FIELDS ∧
  isNone kv.2 = false ∧ isEmptyStr kv.2 = false ∧ ValNormal kv.2

/-! ## Lemmas about the dictionary model -/

theorem dlookup_eq_none_iff (d : PyObj) (k : Str) :
    dlookup d k = none ↔ k ∉ dkeys d := by
  induction d with
  | nil => simp [dlookup, dkeys]
  | cons kv rest ih =>
    obtain ⟨k', v⟩ := kv
    by_cases h : k' = k
    · subst h
      simp [dlookup, dkeys]
    · have hne : k ≠ k' := fun e => h e.symm
      have h1 : dlookup ((k', v) :: rest) k = dlookup rest k := by simp [dlookup, h]
      rw [h1, ih]
      simp [dkeys, List.mem_cons, hne]

theorem dlookup_isSome_iff (d : PyObj) (k : Str) :
    (dlookup d k).isSome = true ↔ k ∈ dkeys d := by
  rw [Option.isSome_iff_ne_none]
  constructor
  · intro h
    by_contra hk
    exact h ((dlookup_eq_none_iff d k).2 hk)
  · intro h hn
    exact ((dlookup_eq_none_iff d k).1 hn) h

theorem mem_of_dlookup {d : PyObj} {k : Str} {v : PyVal} (h : dlookup d k = some v) :
    (k, v) ∈ d := by
  induction d with
  | nil => simp [dlookup] at h
  | cons kv rest ih =>
    obtain ⟨k', v'⟩ := kv
    by_cases hk : k' = k
    · subst hk
      simp [dlookup] at h
      subst h
      exact List.mem_cons_self _ _
    · simp [dlookup, hk] at h
      exact List.mem_cons_of_mem _ (ih h)

theorem dlookup_of_mem_nodup {d : PyObj} {k : Str} {v : PyVal}
    (hn : NodupKeys d) (h : (k, v) ∈ d) : dlookup d k = some v := by
  induction d with
  | nil => simp at h
  | cons kv rest ih =>
    obtain ⟨k', v'⟩ := kv
    rcases List.mem_cons.1 h with h1 | h1
    · injection h1 with e1 e2
      subst e1
      subst e2
      simp [dlookup]
    · have hk : k' ≠ k := by
        intro e
        subst e
        have : k' ∈ dkeys rest := List.mem_map_of_mem Prod.fst h1
        exact (List.nodup_cons.1 hn).1 this
      have hn' : NodupKeys rest := (List.nodup_cons.1 hn).2
      simp [dlookup, hk]
      exact ih hn' h1

theorem dlookup_append_left {d1 : PyObj} (d2 : PyObj) {k : Str} {v : PyVal}
    (h : dlookup d1 k = some v) : dlookup (d1 ++ d2) k = some v := by
  induction d1 with
  | nil => simp [dlookup] at h
  | cons kv rest ih =>
    obtain ⟨k', v'⟩ := kv
    by_cases hk : k' = k
    · subst hk
      simp [dlookup] at h ⊢
      exact h
    · simp [dlookup, hk] at h ⊢
      exact ih h

theorem dlookup_append_right {d1 : PyObj} (d2 : PyObj) {k : Str}
    (h : k ∉ dkeys d1) : dlookup (d1 ++ d2) k = dlookup d2 k := by
  induction d1 with
  | nil => rfl
  | cons kv rest ih =>
    obtain ⟨k', v'⟩ := kv
    simp [dkeys] at h
    have hk : k' ≠ k := fun e => h.1 e.symm
    simp [dlookup, hk]
    exact ih (by simpa [dkeys] using h.2)

theorem dkeys_dinsert (d : PyObj) (k : Str) (v : PyVal) :
    dkeys (dinsert d k v) = if k ∈ dkeys d then dkeys d else dkeys d ++ [k] := by
  unfold dinsert
  by_cases h : k ∈ dkeys d
  · rw [if_pos h, if_pos h]
    unfold dkeys
    rw [List.map_map]
    refine List.map_congr_left fun kv _ => ?_
    by_cases e : kv.1 = k <;> simp [e]
  · rw [if_neg h, if_neg h]
    simp [dkeys]

theorem dinsert_nodup {d : PyObj} (k : Str) (v : PyVal) (hn : NodupKeys d) :
    NodupKeys (dinsert d k v) := by
  unfold NodupKeys
  rw [dkeys_dinsert]
  by_cases h : k ∈ dkeys d
  · simpa [h] using hn
  · simp only [if_neg h]
    rw [List.nodup_append]
    refine ⟨hn, List.nodup_singleton k, ?_⟩
    intro a ha hb
    simp at hb
    subst hb
    exact h ha

theorem mem_dinsert {kv : Str × PyVal} {d : PyObj} {k : Str} {v : PyVal}
    (h : kv ∈ dinsert d k v) : kv ∈ d ∨ kv = (k, v) := by
  unfold dinsert at h
  by_cases hk : k ∈ dkeys d
  · rw [if_pos hk] at h
    obtain ⟨kv', hkv', he⟩ := List.mem_map.1 h
    by_cases e : kv'.1 = k
    · right
      rw [← he]
      simp [e]
    · left
      rw [← he]
      simpa [e] using hkv'
  · rw [if_neg hk] at h
    rcases List.mem_append.1 h with h1 | h1
    · exact Or.inl h1
    · exact Or.inr (by simpa using h1)

theorem foldl_dinsert_nodup (l : List (Str × PyVal)) {acc : PyObj} (hn : NodupKeys acc) :
    NodupKeys (l.foldl (fun a kv => dinsert a kv.1 kv.2) acc) := by
  induction l generalizing acc with
  | nil => exact hn
  | cons kv rest ih => exact ih (dinsert_nodup _ _ hn)

theorem dictify_nodup (l : List (Str × PyVal)) : NodupKeys (dictify l) :=
  foldl_dinsert_nodup l (by simp [NodupKeys, dkeys])

theorem mem_foldl_dinsert {kv : Str × PyVal} (l : List (Str × PyVal)) (acc : PyObj)
    (h : kv ∈ l.foldl (fun a p => dinsert a p.1 p.2) acc) : kv ∈ acc ∨ kv ∈ l := by
  induction l generalizing acc with
  | nil => exact Or.inl h
  | cons p rest ih =>
    rcases ih _ h with h1 | h1
    · rcases mem_dinsert h1 with h2 | h2
      · exact Or.inl h2
      · exact Or.inr (by rw [h2]; exact List.mem_cons_self _ _)
    · exact Or.inr (List.mem_cons_of_mem _ h1)

theorem mem_dictify {kv : Str × PyVal} {l : List (Str × PyVal)}
    (h : kv ∈ dictify l) : kv ∈ l := by
  rcases mem_foldl_dinsert l [] h with h1 | h1
  · simp at h1
  · exact h1

theorem foldl_dinsert_eq_append {l : List (Str × PyVal)} {acc : PyObj}
    (hn : NodupKeys (acc ++ l)) :
    l.foldl (fun a kv => dinsert a kv.1 kv.2) acc = acc ++ l := by
  induction l generalizing acc with
  | nil => simp
  | cons kv rest ih =>
    obtain ⟨k, v⟩ := kv
    have hk : k ∉ dkeys acc := by
      intro hmem
      simp only [NodupKeys, dkeys, List.map_append] at hn
      obtain ⟨-, -, hdisj⟩ := List.nodup_append.1 hn
      exact hdisj hmem (by simp)
    have step : dinsert acc k v = acc ++ [(k, v)] := by
      unfold dinsert
      rw [if_neg hk]
    rw [List.foldl_cons, step]
    have hn' : NodupKeys ((acc ++ [(k, v)]) ++ rest) := by
      rw [List.append_assoc]
      exact hn
    rw [ih hn']
    simp

theorem dictify_eq_self {l : List (Str × PyVal)} (hn : NodupKeys l) : dictify l = l := by
  have := @foldl_dinsert_eq_append l [] (by simpa using hn)
  simpa [dictify] using this

theorem dkeys_mapVal (f : PyVal → PyVal) (d : PyObj) : dkeys (mapVal f d) = dkeys d := by
  simp [mapVal, dkeys, List.map_map]

theorem dlookup_mapVal (f : PyVal → PyVal) (d : PyObj) (k : Str) :
    dlookup (mapVal f d) k = (dlookup d k).map f := by
  induction d with
  | nil => rfl
  | cons kv rest ih =>
    obtain ⟨k', v⟩ := kv
    by_cases hk : k' = k
    · subst hk
      simp [mapVal, dlookup]
    · simp [mapVal, dlookup, hk] at ih ⊢
      exact ih

theorem nodupKeys_of_perm {l l' : PyObj} (h : l.Perm l') (hn : NodupKeys l) :
    NodupKeys l' := by
  unfold NodupKeys dkeys at hn ⊢
  exact ((h.map Prod.fst).nodup_iff).1 hn

theorem dlookup_perm {l l' : PyObj} (h : l.Perm l') (hn : NodupKeys l) (k : Str) :
    dlookup l' k = dlookup l k := by
  cases hv : dlookup l k with
  | some v =>
    have hm : (k, v) ∈ l := mem_of_dlookup hv
    have hm' : (k, v) ∈ l' := h.mem_iff.1 hm
    exact dlookup_of_mem_nodup (nodupKeys_of_perm h hn) hm'
  | none =>
    have hk : k ∉ dkeys l := (dlookup_eq_none_iff l k).1 hv
    have hk' : k ∉ dkeys l' := by
      intro hmem
      exact hk (((h.map Prod.fst).mem_iff).2 hmem)
    exact (dlookup_eq_none_iff l' k).2 hk'

/-! ## Lemmas about `setdefault` backfilling -/

theorem dsetdefault_of_mem {d : PyObj} {k : Str} (v : PyVal) (h : k ∈ dkeys d) :
    dsetdefault d k v = d := by
  unfold dsetdefault
  rw [if_pos h]

theorem dsetdefault_of_not_mem {d : PyObj} {k : Str} (v : PyVal) (h : k ∉ dkeys d) :
    dsetdefault d k v = d ++ [(k, v)] := by
  unfold dsetdefault
  rw [if_neg h]

theorem mem_dsetdefault {kv : Str × PyVal} {d : PyObj} {k : Str} {v : PyVal}
    (h : kv ∈ dsetdefault d k v) : kv ∈ d ∨ kv = (k, v) := by
  unfold dsetdefault at h
  by_cases hk : k ∈ dkeys d
  · rw [if_pos hk] at h
    exact Or.inl h
  · rw [if_neg hk] at h
    rcases List.mem_append.1 h with h1 | h1
    · exact Or.inl h1
    · exact Or.inr (by simpa using h1)

theorem dkeys_dsetdefault_sub {d : PyObj} {k k' : Str} {v : PyVal}
    (h : k' ∈ dkeys d) : k' ∈ dkeys (dsetdefault d k v) := by
  unfold dsetdefault
  by_cases hk : k ∈ dkeys d
  · rw [if_pos hk]; exact h
  · rw [if_neg hk]
    simp only [dkeys, List.map_append]
    exact List.mem_append_left _ h

theorem dkeys_dsetdefault_self (d : PyObj) (k : Str) (v : PyVal) :
    k ∈ dkeys (dsetdefault d k v) := by
  unfold dsetdefault
  by_cases hk : k ∈ dkeys d
  · rw [if_pos hk]; exact hk
  · rw [if_neg hk]
    simp only [dkeys, List.map_append]
    exact List.mem_append_right _ (by simp)

theorem dsetdefault_nodup {d : PyObj} (k : Str) (v : PyVal) (hn : NodupKeys d) :
    NodupKeys (dsetdefault d k v) := by
  unfold dsetdefault
  by_cases hk : k ∈ dkeys d
  · rw [if_pos hk]; exact hn
  · rw [if_neg hk]
    unfold NodupKeys at hn ⊢
    simp only [dkeys, List.map_append]
    rw [List.nodup_append]
    refine ⟨hn, by simp, ?_⟩
    intro a ha hb
    simp at hb
    subst hb
    exact hk ha

theorem dlookup_dsetdefault_of_some {d : PyObj} {k k' : Str} {v w : PyVal}
    (h : dlookup d k' = some w) : dlookup (dsetdefault d k v) k' = some w := by
  unfold dsetdefault
  by_cases hk : k ∈ dkeys d
  · rw [if_pos hk]; exact h
  · rw [if_neg hk]
    exact dlookup_append_left _ h

/-- The `setdefault` backfill loop. -/
def backfill (tbl : PyObj) (d : PyObj) : PyObj :=
  tbl.foldl (fun acc kv => dsetdefault acc kv.1 kv.2) d

theorem mem_backfill {kv : Str × PyVal} (tbl : PyObj) (d : PyObj)
    (h : kv ∈ backfill tbl d) : kv ∈ d ∨ kv ∈ tbl := by
  induction tbl generalizing d with
  | nil => exact Or.inl h
  | cons p rest ih =>
    rcases ih _ h with h1 | h1
    · rcases mem_dsetdefault h1 with h2 | h2
      · exact Or.inl h2
      · exact Or.inr (by rw [h2]; exact List.mem_cons_self _ _)
    · exact Or.inr (List.mem_cons_of_mem _ h1)

theorem backfill_nodup (tbl : PyObj) {d : PyObj} (hn : NodupKeys d) :
    NodupKeys (backfill tbl d) := by
  induction tbl generalizing d with
  | nil => exact hn
  | cons p rest ih => exact ih (dsetdefault_nodup _ _ hn)

theorem backfill_keys_sub (tbl : PyObj) {d : PyObj} {k : Str} (h : k ∈ dkeys d) :
    k ∈ dkeys (backfill tbl d) := by
  induction tbl generalizing d with
  | nil => exact h
  | cons p rest ih => exact ih (dkeys_dsetdefault_sub h)

theorem backfill_keys_tbl (tbl : PyObj) (d : PyObj) {kv : Str × PyVal} (h : kv ∈ tbl) :
    kv.1 ∈ dkeys (backfill tbl d) := by
  induction tbl generalizing d with
  | nil => simp at h
  | cons p rest ih =>
    rcases List.mem_cons.1 h with h1 | h1
    · subst h1
      exact backfill_keys_sub rest (dkeys_dsetdefault_self d kv.1 kv.2)
    · exact ih _ h1

theorem backfill_dlookup_of_some (tbl : PyObj) {d : PyObj} {k : Str} {w : PyVal}
    (h : dlookup d k = some w) : dlookup (backfill tbl d) k = some w := by
  induction tbl generalizing d with
  | nil => exact h
  | cons p rest ih => exact ih (dlookup_dsetdefault_of_some h)

theorem backfill_id_of_keys {tbl : PyObj} {d : PyObj}
    (h : ∀ kv ∈ tbl, kv.1 ∈ dkeys d) : backfill tbl d = d := by
  induction tbl with
  | nil => rfl
  | cons p rest ih =>
    unfold backfill
    rw [List.foldl_cons, dsetdefault_of_mem _ (h p (List.mem_cons_self _ _))]
    exact ih fun kv hkv => h kv (List.mem_cons_of_mem _ hkv)

/-! ## Characterizations of the recursive normalization passes -/

theorem sortItems_eq_mapVal (d : PyObj) : sortItems d = mapVal sortVal d := by
  induction d with
  | nil => rfl
  | cons kv rest ih =>
    obtain ⟨k, v⟩ := kv
    simp [sortItems, mapVal] at ih ⊢
    exact ih

theorem rrlList_eq_map (l : List PyVal) : rrlList l = l.map rrlVal := by
  induction l with
  | nil => rfl
  | cons v rest ih => simp [rrlList, ih]

theorem sortList_eq_map (l : List PyVal) : sortList l = l.map sortVal := by
  induction l with
  | nil => rfl
  | cons v rest ih => simp [sortList, ih]

/-- The filter/map condition of `rrlItems`. -/
def keepItem (kv : Str × PyVal) : Prop :=
  pyLower kv.1 ∉ NON_DETERMINISTIC_FIELDS ∧ isNone kv.2 = false ∧ isEmptyStr kv.2 = false

instance : DecidablePred keepItem := fun kv => by
  unfold keepItem
  infer_instance

theorem rrlItems_cons_keep {k : Str} {v : PyVal} (rest : List (Str × PyVal))
    (h : keepItem (k, v)) :
    rrlItems ((k, v) :: rest) = (pyLower k, rrlVal v) :: rrlItems rest := by
  unfold keepItem at h
  simp only [rrlItems]
  rw [if_pos h]

theorem rrlItems_cons_drop {k : Str} {v : PyVal} (rest : List (Str × PyVal))
    (h : ¬ keepItem (k, v)) :
    rrlItems ((k, v) :: rest) = rrlItems rest := by
  unfold keepItem at h
  simp only [rrlItems]
  rw [if_neg h]

theorem rrlItems_append (l1 l2 : List (Str × PyVal)) :
    rrlItems (l1 ++ l2) = rrlItems l1 ++ rrlItems l2 := by
  induction l1 with
  | nil => rfl
  | cons kv rest ih =>
    obtain ⟨k, v⟩ := kv
    by_cases h : keepItem (k, v)
    · rw [List.cons_append, rrlItems_cons_keep _ h, rrlItems_cons_keep _ h,
        List.cons_append, ih]
    · rw [List.cons_append, rrlItems_cons_drop _ h, rrlItems_cons_drop _ h, ih]

theorem mem_rrlItems {kv : Str × PyVal} {l : List (Str × PyVal)} (h : kv ∈ rrlItems l) :
    ∃ k w, (k, w) ∈ l ∧ kv = (pyLower k, rrlVal w) ∧ keepItem (k, w) := by
  induction l with
  | nil => simp [rrlItems] at h
  | cons p rest ih =>
    obtain ⟨k, w⟩ := p
    by_cases hk : keepItem (k, w)
    · rw [rrlItems_cons_keep _ hk] at h
      rcases List.mem_cons.1 h with h1 | h1
      · exact ⟨k, w, List.mem_cons_self _ _, h1, hk⟩
      · obtain ⟨k', w', hm, he, hkeep⟩ := ih h1
        exact ⟨k', w', List.mem_cons_of_mem _ hm, he, hkeep⟩
    · rw [rrlItems_cons_drop _ hk] at h
      obtain ⟨k', w', hm, he, hkeep⟩ := ih h
      exact ⟨k', w', List.mem_cons_of_mem _ hm, he, hkeep⟩

theorem rrlItems_eq_self {l : List (Str × PyVal)}
    (h : ∀ kv ∈ l, pyLower kv.1 = kv.1 ∧ kv.1 ∉ NON_DETERMINISTIC_FIELDS ∧
      isNone kv.2 = false ∧ isEmptyStr kv.2 = false ∧ rrlVal kv.2 = kv.2) :
    rrlItems l = l := by
  induction l with
  | nil => rfl
  | cons kv rest ih =>
    obtain ⟨k, v⟩ := kv
    obtain ⟨hl, hnd, hnn, hne, hrv⟩ := h (k, v) (List.mem_cons_self _ _)
    have hkeep : keepItem (k, v) := ⟨by rw [hl]; exact hnd, hnn, hne⟩
    rw [rrlItems_cons_keep _ hkeep, hl, hrv]
    rw [ih fun kv hkv => h kv (List.mem_cons_of_mem _ hkv)]

theorem isNone_rrlVal (v : PyVal) : isNone (rrlVal v) = isNone v := by
  cases v with
  | vstr s =>
    by_cases h : pyUuidValid s = true <;> simp [rrlVal, isNone, h]
  | _ => simp [rrlVal, isNone]

theorem isEmptyStr_rrlVal (v : PyVal) : isEmptyStr (rrlVal v) = isEmptyStr v := by
  cases v with
  | vstr s =>
    by_cases h : pyUuidValid s = true
    · simp only [rrlVal, if_pos h]
      cases hs : s with
      | nil => simp [isEmptyStr, pyLower]
      | cons c cs =>
        have : pyLower (c :: cs) ≠ [] := by
          intro he
          exact absurd ((pyLower_eq_nil_iff _).1 he) (by simp)
        cases hp : pyLower (c :: cs) with
        | nil => exact absurd hp this
        | cons c' cs' => simp [isEmptyStr]
    · simp [rrlVal, h]
  | _ => simp [rrlVal, isEmptyStr]

theorem isNone_sortVal (v : PyVal) : isNone (sortVal v) = isNone v := by
  cases v <;> simp [sortVal, isNone]

theorem isEmptyStr_sortVal (v : PyVal) : isEmptyStr (sortVal v) = isEmptyStr v := by
  cases v <;> simp [sortVal, isEmptyStr]

theorem mapVal_eq_self {f : PyVal → PyVal} {l : PyObj}
    (h : ∀ kv ∈ l, f kv.2 = kv.2) : mapVal f l = l := by
  unfold mapVal
  calc l.map (fun kv => (kv.1, f kv.2)) = l.map id := by
        refine List.map_congr_left fun kv hkv => ?_
        rw [h kv hkv]
        simp
  _ = l := List.map_id l

/-! ## Noise-field lemmas (claim C9) -/

theorem ndf_lower_fixed : ∀ f ∈ NON_DETERMINISTIC_FIELDS, pyLower f = f := by decide

theorem keepItem_ndf_false {k : Str} (v : PyVal) (hf : k ∈ NON_DETERMINISTIC_FIELDS)
    (hfl : pyLower k = k) : ¬ keepItem (k, v) := by
  intro hc
  apply hc.1
  show pyLower k ∈ NON_DETERMINISTIC_FIELDS
  rw [hfl]
  exact hf

theorem rrlItems_replace_ndf (cfg : PyObj) {f : Str} (v : PyVal)
    (hf : f ∈ NON_DETERMINISTIC_FIELDS) :
    rrlItems (cfg.map fun kv => if kv.1 = f then (kv.1, v) else kv) = rrlItems cfg := by
  have hfl : pyLower f = f := ndf_lower_fixed f hf
  induction cfg with
  | nil => rfl
  | cons kv rest ih =>
    obtain ⟨k, w⟩ := kv
    by_cases he : k = f
    · subst he
      have hd1 : ¬ keepItem (k, v) := keepItem_ndf_false v hf hfl
      have hd2 : ¬ keepItem (k, w) := keepItem_ndf_false w hf hfl
      simp only [List.map_cons, if_true]
      rw [rrlItems_cons_drop _ hd1, rrlItems_cons_drop _ hd2]
      exact ih
    · simp only [List.map_cons, if_neg he]
      by_cases hkeep : keepItem (k, w)
      · rw [rrlItems_cons_keep _ hkeep, rrlItems_cons_keep _ hkeep, ih]
      · rw [rrlItems_cons_drop _ hkeep, rrlItems_cons_drop _ hkeep, ih]

theorem rrlItems_dinsert_ndf (cfg : PyObj) {f : Str} (v : PyVal)
    (hf : f ∈ NON_DETERMINISTIC_FIELDS) :
    rrlItems (dinsert cfg f v) = rrlItems cfg := by
  have hfl : pyLower f = f := ndf_lower_fixed f hf
  unfold dinsert
  by_cases hk : f ∈ dkeys cfg
  · rw [if_pos hk]
    exact rrlItems_replace_ndf cfg v hf
  · rw [if_neg hk, rrlItems_append]
    have hd : ¬ keepItem (f, v) := keepItem_ndf_false v hf hfl
    rw [rrlItems_cons_drop _ hd]
    simp [rrlItems]

theorem rrlItems_derase_ndf (cfg : PyObj) {f : Str}
    (hf : f ∈ NON_DETERMINISTIC_FIELDS) :
    rrlItems (derase cfg f) = rrlItems cfg := by
  have hfl : pyLower f = f := ndf_lower_fixed f hf
  induction cfg with
  | nil => rfl
  | cons kv rest ih =>
    obtain ⟨k, w⟩ := kv
    by_cases he : k = f
    · subst he
      have hd : ¬ keepItem (k, w) := keepItem_ndf_false w hf hfl
      have : derase ((k, w) :: rest) k = derase rest k := by
        simp [derase]
      rw [this, rrlItems_cons_drop _ hd]
      exact ih
    · have : derase ((k, w) :: rest) f = (k, w) :: derase rest f := by
        simp [derase, he]
      rw [this]
      by_cases hkeep : keepItem (k, w)
      · rw [rrlItems_cons_keep _ hkeep, rrlItems_cons_keep _ hkeep, ih]
      · rw [rrlItems_cons_drop _ hkeep, rrlItems_cons_drop _ hkeep, ih]

/-- `normalize_config` depends on its input only through `rrlItems`. -/
theorem normalize_congr {a b : PyObj} (d : Defaults) (h : rrlItems a = rrlItems b) :
    normalize_config a d = normalize_config b d := by
  unfold normalize_config
  rw [h]

/-! ## The deduplication loop refines the streaming specification (claim C6) -/

theorem dedup_fold_spec (defaults : Defaults) (lines : List Str) :
    ∀ table : List (Str × Str),
      (lines.foldl (dedupStep defaults) table).map Prod.snd =
        table.map Prod.snd ++ dedupSpecGo defaults (table.map Prod.fst) lines := by
  induction lines with
  | nil => intro table; simp [dedupSpecGo]
  | cons l ls ih =>
    intro table
    rw [List.foldl_cons]
    cases hp : parse_proxy_link l with
    | none =>
      have hstep : dedupStep defaults table l = table := by
        unfold dedupStep
        rw [hp]
      rw [hstep, ih table]
      simp only [dedupSpecGo, hp]
    | some c =>
      by_cases hm :
          fingerprint_config (normalize_config c defaults) ∈ table.map Prod.fst
      · have hstep : dedupStep defaults table l = table := by
          unfold dedupStep
          rw [hp]
          simp only [if_pos hm]
        rw [hstep, ih table]
        simp only [dedupSpecGo, hp, if_pos hm]
      · have hstep : dedupStep defaults table l =
            table ++ [(fingerprint_config (normalize_config c defaults), l)] := by
          unfold dedupStep
          rw [hp]
          simp only [if_neg hm]
        rw [hstep, ih]
        simp only [dedupSpecGo, hp, if_neg hm, List.map_append, List.map_cons,
          List.map_nil, List.append_assoc]
        rfl

theorem dedupSource_eq_spec (defaults : Defaults) (lines : List Str) :
    dedupSource defaults lines = dedupSpecGo defaults [] lines := by
  unfold dedupSource
  have := dedup_fold_spec defaults lines []
  simpa using this

theorem processSources_eq_map (defaults : Defaults) (sources : List (List Str)) :
    processSources defaults sources = sources.map (dedupSource defaults) := by
  induction sources with
  | nil => rfl
  | cons src rest ih => simp [processSources, ih]

/-! ## The loaded-defaults pipeline (claim C5) -/

theorem dedupStepE_table (d : Defaults) (table : List (Str × Str)) (raw : Str) :
    dedupStepE (.table d) table raw = .ok (dedupStep d table raw) := by
  unfold dedupStepE dedupStep normalizeWithLoaded
  cases parse_proxy_link raw <;> rfl

theorem dedupSourceE_table (d : Defaults) (lines : List Str) :
    dedupSourceE (.table d) lines = .ok (dedupSource d lines) := by
  unfold dedupSourceE dedupSource
  have aux : ∀ table : List (Str × Str),
      lines.foldlM (dedupStepE (.table d)) table = .ok (lines.foldl (dedupStep d) table) := by
    induction lines with
    | nil => intro table; rfl
    | cons l ls ih =>
      intro table
      rw [List.foldlM_cons, dedupStepE_table]
      simp only [List.foldl_cons]
      exact ih (dedupStep d table l)
  rw [aux]
  rfl

theorem runPipeline_table (d : Defaults) (sources : List (List Str)) :
    runPipeline (.readable (.value (.table d))) sources =
      .ok (processSources d sources) := by
  unfold runPipeline load_defaults
  have aux : ∀ acc : List (List Str),
      sources.foldlM (fun acc src => do
        let out ← dedupSourceE (.table d) src
        pure (acc ++ [out])) acc = .ok (acc ++ processSources d sources) := by
    induction sources with
    | nil =>
      intro acc
      simp only [List.foldlM_nil, processSources, List.append_nil]
      rfl
    | cons src rest ih =>
      intro acc
      rw [List.foldlM_cons, dedupSourceE_table]
      simp only [processSources]
      have := ih (acc ++ [dedupSource d src])
      simpa using this
  simpa using aux []

theorem runPipeline_absent (sources : List (List Str)) :
    runPipeline .absent sources = .ok (processSources [] sources) := by
  unfold runPipeline load_defaults
  have aux : ∀ acc : List (List Str),
      sources.foldlM (fun acc src => do
        let out ← dedupSourceE (.table []) src
        pure (acc ++ [out])) acc = .ok (acc ++ processSources [] sources) := by
    induction sources with
    | nil =>
      intro acc
      simp only [List.foldlM_nil, processSources, List.append_nil]
      rfl
    | cons src rest ih =>
      intro acc
      rw [List.foldlM_cons, dedupSourceE_table]
      simp only [processSources]
      have := ih (acc ++ [dedupSource [] src])
      simpa using this
  simpa using aux []

/-! ## Values in the image of normalization are fixed points of a second
normalization pass (towards claim C8) -/

theorem valNormal_vdict_of_entries {L : PyObj} (hent : ∀ kv ∈ L, EntryNormal kv)
    (hnodup : NodupKeys L) (hsorted : L.Sorted keyLE) : ValNormal (.vdict L) := by
  constructor
  · show rrlVal (.vdict L) = .vdict L
    simp only [rrlVal]
    rw [rrlItems_eq_self, dictify_eq_self hnodup]
    intro kv hkv
    obtain ⟨h1, h2, h3, h4, h5⟩ := hent kv hkv
    exact ⟨h1, h2, h3, h4, h5.1⟩
  · show sortVal (.vdict L) = .vdict L
    simp only [sortVal]
    rw [sortItems_eq_mapVal, mapVal_eq_self fun kv hkv => (hent kv hkv).2.2.2.2.2,
      hsorted.insertionSort_eq]

theorem valNormal_aux :
    ∀ (n : Nat) (v : PyVal), sizeOf v ≤ n → ValNormal (sortVal (rrlVal v)) := by
  intro n
  induction n with
  | zero =>
    intro v hv
    exact absurd hv (by cases v <;> simp)
  | succ n ih =>
    intro v hv
    cases v with
    | vnone => exact ⟨by simp [rrlVal, sortVal], by simp [rrlVal, sortVal]⟩
    | vint m => exact ⟨by simp [rrlVal, sortVal], by simp [rrlVal, sortVal]⟩
    | vstr s =>
      by_cases h : pyUuidValid s = true
      · have e1 : rrlVal (.vstr s) = .vstr (pyLower s) := by simp [rrlVal, h]
        have e2 : sortVal (.vstr (pyLower s)) = .vstr (pyLower s) := by simp [sortVal]
        rw [e1, e2]
        constructor
        · by_cases h2 : pyUuidValid (pyLower s) = true
          · simp [rrlVal, h2, pyLower_idem]
          · simp [rrlVal, h2]
        · simp [sortVal]
      · have e1 : rrlVal (.vstr s) = .vstr s := by simp [rrlVal, h]
        have e2 : sortVal (.vstr s) = .vstr s := by simp [sortVal]
        rw [e1, e2]
        exact ⟨e1, e2⟩
    | vlist l =>
      have hsize : ∀ w ∈ l, sizeOf w ≤ n := by
        intro w hw
        have h1 := List.sizeOf_lt_of_mem hw
        have h2 : sizeOf (PyVal.vlist l) = 1 + sizeOf l := by simp
        omega
      have key : ∀ w ∈ l, ValNormal (sortVal (rrlVal w)) := fun w hw => ih w (hsize w hw)
      have e1 : rrlVal (.vlist l) = .vlist (l.map rrlVal) := by
        simp [rrlVal, rrlList_eq_map]
      have e2 : sortVal (.vlist (l.map rrlVal)) = .vlist ((l.map rrlVal).map sortVal) := by
        simp [sortVal, sortList_eq_map]
      rw [e1, e2, List.map_map]
      constructor
      · have e3 : rrlVal (.vlist (l.map (sortVal ∘ rrlVal))) =
            .vlist ((l.map (sortVal ∘ rrlVal)).map rrlVal) := by
          simp [rrlVal, rrlList_eq_map]
        rw [e3, List.map_map]
        congr 1
        exact List.map_congr_left fun w hw => (key w hw).1
      · have e3 : sortVal (.vlist (l.map (sortVal ∘ rrlVal))) =
            .vlist ((l.map (sortVal ∘ rrlVal)).map sortVal) := by
          simp [sortVal, sortList_eq_map]
        rw [e3, List.map_map]
        congr 1
        exact List.map_congr_left fun w hw => (key w hw).2
    | vdict d =>
      have hsize : ∀ k w, (k, w) ∈ d → sizeOf w ≤ n := by
        intro k w hm
        have h1 := List.sizeOf_lt_of_mem hm
        have h2 : sizeOf (PyVal.vdict d) = 1 + sizeOf d := by simp
        have h3 : sizeOf w < sizeOf ((k, w) : Str × PyVal) := by simp
        omega
      have e1 : rrlVal (.vdict d) = .vdict (dictify (rrlItems d)) := by simp [rrlVal]
      have e2 : sortVal (.vdict (dictify (rrlItems d))) =
          .vdict (List.insertionSort keyLE (sortItems (dictify (rrlItems d)))) := by
        simp [sortVal]
      rw [e1, e2]
      have hperm : (List.insertionSort keyLE (sortItems (dictify (rrlItems d)))).Perm
          (sortItems (dictify (rrlItems d))) := List.perm_insertionSort _ _
      apply valNormal_vdict_of_entries
      · intro kv hkv
        have hkv2 : kv ∈ sortItems (dictify (rrlItems d)) := hperm.subset hkv
        rw [sortItems_eq_mapVal] at hkv2
        obtain ⟨p, hp, hpe⟩ := List.mem_map.1 hkv2
        obtain ⟨k, w, hmem, hpe2, hkeep⟩ := mem_rrlItems (mem_dictify hp)
        subst hpe2
        subst hpe
        show EntryNormal (pyLower k, sortVal (rrlVal w))
        refine ⟨pyLower_idem k, hkeep.1, ?_, ?_, ih w (hsize k w hmem)⟩
        · show isNone (sortVal (rrlVal w)) = false
          rw [isNone_sortVal, isNone_rrlVal]
          exact hkeep.2.1
        · show isEmptyStr (sortVal (rrlVal w)) = false
          rw [isEmptyStr_sortVal, isEmptyStr_rrlVal]
          exact hkeep.2.2
      · have h1 : NodupKeys (dictify (rrlItems d)) := dictify_nodup _
        have h2 : NodupKeys (sortItems (dictify (rrlItems d))) := by
          unfold NodupKeys
          rw [sortItems_eq_mapVal, dkeys_mapVal]
          exact h1
        exact nodupKeys_of_perm hperm.symm h2
      · exact List.sorted_insertionSort _ _

/-- Every value produced by one full normalization pass is a fixed point of
a second pass. -/
theorem valNormal_sort_rrl (v : PyVal) : ValNormal (sortVal (rrlVal v)) :=
  valNormal_aux (sizeOf v) v le_rfl

/-! ## Idempotence of `normalize_config` under a normal defaults table
(claim C8, amended) -/

/-- An entry that becomes normal once its value is recursively key-sorted:
the shape of the entries of the backfilled dict just before the final
`sort_dict_keys`. -/
def PreNormal (kv : Str × PyVal) : Prop :=
  pyLower kv.1 = kv.1 ∧ kv.1 ∉ NON_DETERMINISTIC_FIELDS ∧
  isNone kv.2 = false ∧ isEmptyStr kv.2 = false ∧ ValNormal (sortVal kv.2)

/-- A defaults table whose entries survive a second normalization pass
unchanged. -/
def DefaultsNormal (d : Defaults) : Prop :=
  ∀ proto tbl, tlookup d proto = some tbl → ∀ kv ∈ tbl, EntryNormal kv

theorem preNormal_of_entryNormal {kv : Str × PyVal} (h : EntryNormal kv) :
    PreNormal kv := by
  obtain ⟨h1, h2, h3, h4, h5⟩ := h
  exact ⟨h1, h2, h3, h4, by rw [h5.2]; exact h5⟩

theorem preNormal_of_mem_dictify_rrlItems {kv : Str × PyVal} {x : PyObj}
    (h : kv ∈ dictify (rrlItems x)) : PreNormal kv := by
  obtain ⟨k, w, hmem, he, hkeep⟩ := mem_rrlItems (mem_dictify h)
  subst he
  refine ⟨pyLower_idem k, hkeep.1, ?_, ?_, valNormal_sort_rrl w⟩
  · show isNone (rrlVal w) = false
    rw [isNone_rrlVal]
    exact hkeep.2.1
  · show isEmptyStr (rrlVal w) = false
    rw [isEmptyStr_rrlVal]
    exact hkeep.2.2

theorem entryNormal_of_mem_sortObjTop {b : PyObj} (hpre : ∀ kv ∈ b, PreNormal kv)
    {kv : Str × PyVal} (h : kv ∈ sortObjTop b) : EntryNormal kv := by
  have hperm : (sortObjTop b).Perm (sortItems b) := List.perm_insertionSort _ _
  have h2 : kv ∈ sortItems b := hperm.subset h
  rw [sortItems_eq_mapVal] at h2
  obtain ⟨p, hp, hpe⟩ := List.mem_map.1 h2
  subst hpe
  obtain ⟨h1, h2, h3, h4, h5⟩ := hpre p hp
  refine ⟨h1, h2, ?_, ?_, h5⟩
  · show isNone (sortVal p.2) = false
    rw [isNone_sortVal]
    exact h3
  · show isEmptyStr (sortVal p.2) = false
    rw [isEmptyStr_sortVal]
    exact h4

theorem nodupKeys_sortObjTop {b : PyObj} (hn : NodupKeys b) :
    NodupKeys (sortObjTop b) := by
  have hperm : (sortObjTop b).Perm (sortItems b) := List.perm_insertionSort _ _
  have h2 : NodupKeys (sortItems b) := by
    unfold NodupKeys
    rw [sortItems_eq_mapVal, dkeys_mapVal]
    exact hn
  exact nodupKeys_of_perm hperm.symm h2

theorem sorted_sortObjTop (b : PyObj) : (sortObjTop b).Sorted keyLE :=
  List.sorted_insertionSort _ _

theorem dlookup_sortObjTop {b : PyObj} (hn : NodupKeys b) (k : Str) :
    dlookup (sortObjTop b) k = (dlookup b k).map sortVal := by
  have hnn : NodupKeys (sortItems b) := by
    unfold NodupKeys
    rw [sortItems_eq_mapVal, dkeys_mapVal]
    exact hn
  have hperm : (sortItems b).Perm (sortObjTop b) :=
    (List.perm_insertionSort _ _).symm
  rw [dlookup_perm hperm hnn k, sortItems_eq_mapVal, dlookup_mapVal]

theorem mem_dkeys_sortObjTop {b : PyObj} (hn : NodupKeys b) (k : Str) :
    k ∈ dkeys (sortObjTop b) ↔ k ∈ dkeys b := by
  rw [← dlookup_isSome_iff, ← dlookup_isSome_iff, dlookup_sortObjTop hn]
  cases dlookup b k <;> simp

/-- Backfill against a looked-up table (`none` when the protocol is not a
key of the defaults). -/
def pbTable (r : PyObj) : Option PyObj → PyObj
  | some tbl => backfill tbl r
  | none => r

/-- Dispatch of the backfill step on the normalized `protocol` value. -/
def pbProto (d : Defaults) (r : PyObj) : PyVal → PyObj
  | .vstr s => if s ≠ [] then pbTable r (tlookup d s) else r
  | _ => r

/-- The defaults-backfill step of `normalize_config`, as a function of the
already-filtered dict. -/
def postBackfill (d : Defaults) (r : PyObj) : PyObj :=
  pbProto d r (dget r (S "protocol"))

theorem normalize_config_eq (x : PyObj) (d : Defaults) :
    normalize_config x d = sortObjTop (postBackfill d (dictify (rrlItems x))) := by
  unfold normalize_config postBackfill pbProto pbTable backfill
  cases h : dget (dictify (rrlItems x)) (S "protocol") <;> simp only [h]

theorem normalize_config_nil (config : PyObj) :
    normalize_config config [] = sortObjTop (dictify (rrlItems config)) := by
  rw [normalize_config_eq]
  unfold postBackfill
  cases h : dget (dictify (rrlItems config)) (S "protocol") <;>
    simp only [pbProto] <;>
    try rfl
  split <;> rfl

theorem normalizeWithLoaded_seq_not_mem (config : PyObj) (l : List PyVal)
    (h : l.any (pyEq (dget (dictify (rrlItems config)) (S "protocol"))) = false) :
    normalizeWithLoaded (.seqDoc l) config = .ok (normalize_config config []) := by
  simp only [normalizeWithLoaded]
  rw [normalize_config_nil]
  by_cases ht : truthy (dget (dictify (rrlItems config)) (S "protocol")) = true
  · rw [if_pos ht, if_neg (by rw [h]; exact Bool.false_ne_true)]
  · rw [Bool.not_eq_true] at ht
    rw [if_neg (by rw [ht]; exact Bool.false_ne_true)]

theorem normalizeWithLoaded_seq_mem (config : PyObj) (l : List PyVal)
    (ht : truthy (dget (dictify (rrlItems config)) (S "protocol")) = true)
    (hm : l.any (pyEq (dget (dictify (rrlItems config)) (S "protocol"))) = true) :
    normalizeWithLoaded (.seqDoc l) config = .error .typeError := by
  simp only [normalizeWithLoaded]
  rw [if_pos ht, if_pos hm]

theorem dedupStepE_seqNil (table : List (Str × Str)) (raw : Str) :
    dedupStepE (.seqDoc []) table raw = .ok (dedupStep [] table raw) := by
  unfold dedupStepE dedupStep
  cases parse_proxy_link raw with
  | none => rfl
  | some parsed =>
    simp only [normalizeWithLoaded_seq_not_mem parsed [] rfl]
    rfl

theorem dedupSourceE_seqNil (lines : List Str) :
    dedupSourceE (.seqDoc []) lines = .ok (dedupSource [] lines) := by
  unfold dedupSourceE dedupSource
  have aux : ∀ table : List (Str × Str),
      lines.foldlM (dedupStepE (.seqDoc [])) table = .ok (lines.foldl (dedupStep []) table) := by
    induction lines with
    | nil => intro table; rfl
    | cons l ls ih =>
      intro table
      rw [List.foldlM_cons, dedupStepE_seqNil]
      simp only [List.foldl_cons]
      exact ih (dedupStep [] table l)
  rw [aux]
  rfl

theorem runPipeline_seqNil (sources : List (List Str)) :
    runPipeline (.readable (.value (.seqDoc []))) sources =
      .ok (processSources [] sources) := by
  unfold runPipeline load_defaults
  have aux : ∀ acc : List (List Str),
      sources.foldlM (fun acc src => do
        let out ← dedupSourceE (.seqDoc []) src
        pure (acc ++ [out])) acc = .ok (acc ++ processSources [] sources) := by
    induction sources with
    | nil =>
      intro acc
      simp only [List.foldlM_nil, processSources, List.append_nil]
      rfl
    | cons src rest ih =>
      intro acc
      rw [List.foldlM_cons, dedupSourceE_seqNil]
      simp only [processSources]
      have := ih (acc ++ [dedupSource [] src])
      simpa using this
  simpa using aux []

theorem sortObjTop_fixed {L : PyObj} (hent : ∀ kv ∈ L, EntryNormal kv)
    (hsorted : L.Sorted keyLE) : sortObjTop L = L := by
  unfold sortObjTop
  rw [sortItems_eq_mapVal, mapVal_eq_self fun kv hkv => (hent kv hkv).2.2.2.2.2,
    hsorted.insertionSort_eq]

theorem dictify_rrlItems_fixed {L : PyObj} (hent : ∀ kv ∈ L, EntryNormal kv)
    (hnodup : NodupKeys L) : dictify (rrlItems L) = L := by
  rw [rrlItems_eq_self, dictify_eq_self hnodup]
  intro kv hkv
  obtain ⟨h1, h2, h3, h4, h5⟩ := hent kv hkv
  exact ⟨h1, h2, h3, h4, h5.1⟩

/-- Idempotence of `normalize_config` for defaults tables whose entries are
normal. -/
theorem normalize_config_idem {x : PyObj} {d : Defaults} (hd : DefaultsNormal d) :
    normalize_config (normalize_config x d) d = normalize_config x d := by
  have hbase := normalize_config_eq x d
  set r := dictify (rrlItems x) with hrdef
  have hrn : NodupKeys r := dictify_nodup _
  have hrpre : ∀ kv ∈ r, PreNormal kv := fun kv h => preNormal_of_mem_dictify_rrlItems h
  -- facts about the backfilled dict, by cases on the protocol branch
  have hb : ∃ b : PyObj, postBackfill d r = b ∧ (∀ kv ∈ b, PreNormal kv) ∧ NodupKeys b ∧
      postBackfill d (sortObjTop b) = sortObjTop b := by
    cases hp : dget r (S "protocol") with
    | vstr s =>
      have hlook : dlookup r (S "protocol") = some (.vstr s) := by
        unfold dget at hp
        cases hl : dlookup r (S "protocol") with
        | none => rw [hl] at hp; simp at hp
        | some w => rw [hl] at hp; simp at hp; rw [hp]
      by_cases hs : s ≠ []
      · cases ht : tlookup d s with
        | some tbl =>
          refine ⟨backfill tbl r, ?_, ?_, backfill_nodup tbl hrn, ?_⟩
          · unfold postBackfill
            rw [hp]
            simp only [pbProto, if_pos hs, ht, pbTable]
          · intro kv hkv
            rcases mem_backfill tbl r hkv with h1 | h1
            · exact hrpre kv h1
            · exact preNormal_of_entryNormal (hd s tbl ht kv h1)
          · -- the second pass takes the same branch and backfills nothing new
            have hbn : NodupKeys (backfill tbl r) := backfill_nodup tbl hrn
            have hlook2 : dlookup (backfill tbl r) (S "protocol") = some (.vstr s) :=
              backfill_dlookup_of_some tbl hlook
            have hlook3 : dlookup (sortObjTop (backfill tbl r)) (S "protocol") =
                some (.vstr s) := by
              rw [dlookup_sortObjTop hbn, hlook2]
              simp [sortVal]
            unfold postBackfill
            rw [show dget (sortObjTop (backfill tbl r)) (S "protocol") = .vstr s by
              unfold dget; rw [hlook3]; rfl]
            simp only [pbProto, if_pos hs, ht, pbTable]
            apply backfill_id_of_keys
            intro kv hkv
            rw [mem_dkeys_sortObjTop hbn]
            exact backfill_keys_tbl tbl r hkv
        | none =>
          refine ⟨r, ?_, hrpre, hrn, ?_⟩
          · unfold postBackfill
            rw [hp]
            simp only [pbProto, if_pos hs, ht, pbTable]
          · have hlook3 : dlookup (sortObjTop r) (S "protocol") = some (.vstr s) := by
              rw [dlookup_sortObjTop hrn, hlook]
              simp [sortVal]
            unfold postBackfill
            rw [show dget (sortObjTop r) (S "protocol") = .vstr s by
              unfold dget; rw [hlook3]; rfl]
            simp only [pbProto, if_pos hs, ht, pbTable]
      · refine ⟨r, ?_, hrpre, hrn, ?_⟩
        · unfold postBackfill
          rw [hp]
          simp only [pbProto, if_neg hs]
        · have hlook3 : dlookup (sortObjTop r) (S "protocol") = some (.vstr s) := by
            rw [dlookup_sortObjTop hrn, hlook]
            simp [sortVal]
          unfold postBackfill
          rw [show dget (sortObjTop r) (S "protocol") = .vstr s by
            unfold dget; rw [hlook3]; rfl]
          simp only [pbProto, if_neg hs]
    | vnone =>
      refine ⟨r, by unfold postBackfill; rw [hp]; simp only [pbProto], hrpre, hrn, ?_⟩
      have hget2 : dget (sortObjTop r) (S "protocol") = .vnone := by
        unfold dget at hp ⊢
        rw [dlookup_sortObjTop hrn]
        cases hl : dlookup r (S "protocol") with
        | none => simp
        | some w =>
          rw [hl] at hp
          simp at hp
          rw [hp]
          simp [sortVal]
      unfold postBackfill
      rw [hget2]
      simp only [pbProto]
    | vint m =>
      refine ⟨r, by unfold postBackfill; rw [hp]; simp only [pbProto], hrpre, hrn, ?_⟩
      have hlook : dlookup r (S "protocol") = some (.vint m) := by
        unfold dget at hp
        cases hl : dlookup r (S "protocol") with
        | none => rw [hl] at hp; simp at hp
        | some w => rw [hl] at hp; simp at hp; rw [hp]
      have hget2 : dget (sortObjTop r) (S "protocol") = .vint m := by
        unfold dget
        rw [dlookup_sortObjTop hrn, hlook]
        simp [sortVal]
      unfold postBackfill
      rw [hget2]
      simp only [pbProto]
    | vdict l =>
      refine ⟨r, by unfold postBackfill; rw [hp]; simp only [pbProto], hrpre, hrn, ?_⟩
      have hlook : dlookup r (S "protocol") = some (.vdict l) := by
        unfold dget at hp
        cases hl : dlookup r (S "protocol") with
        | none => rw [hl] at hp; simp at hp
        | some w => rw [hl] at hp; simp at hp; rw [hp]
      have hget2 : dget (sortObjTop r) (S "protocol") =
          .vdict (List.insertionSort keyLE (sortItems l)) := by
        unfold dget
        rw [dlookup_sortObjTop hrn, hlook]
        simp [sortVal]
      unfold postBackfill
      rw [hget2]
      simp only [pbProto]
    | vlist l =>
      refine ⟨r, by unfold postBackfill; rw [hp]; simp only [pbProto], hrpre, hrn, ?_⟩
      have hlook : dlookup r (S "protocol") = some (.vlist l) := by
        unfold dget at hp
        cases hl : dlookup r (S "protocol") with
        | none => rw [hl] at hp; simp at hp
        | some w => rw [hl] at hp; simp at hp; rw [hp]
      have hget2 : dget (sortObjTop r) (S "protocol") = .vlist (sortList l) := by
        unfold dget
        rw [dlookup_sortObjTop hrn, hlook]
        simp [sortVal]
      unfold postBackfill
      rw [hget2]
      simp only [pbProto]
  obtain ⟨b, hbdef, hbpre, hbn, hback⟩ := hb
  rw [hbase, hbdef]
  have hent : ∀ kv ∈ sortObjTop b, EntryNormal kv :=
    fun kv h => entryNormal_of_mem_sortObjTop hbpre h
  rw [normalize_config_eq,
    dictify_rrlItems_fixed hent (nodupKeys_sortObjTop hbn), hback,
    sortObjTop_fixed hent (sorted_sortObjTop b)]

/-! ## Concrete inputs used by the claim witnesses and counterexamples -/

/-- A vmess link in the base64-JSON encoding: the blob decodes to
`{"add":"h","port":443,"id":"u"}`. -/
def vmessBlobLink : Str := S "vmess://eyJhZGQiOiJoIiwicG9ydCI6NDQzLCJpZCI6InUifQ=="

/-- A vmess link in the URI-with-authority encoding (uuid userinfo, host,
port, query), which the script fails to parse. -/
def vmessUriLink : Str :=
  S "vmess://11111111-2222-3333-4444-555555555555@example.com:443?type=ws"

/-- The same UUID spelled with hyphens and without. -/
def uuidHyphenated : Str := S "AAAAAAAA-AAAA-AAAA-AAAA-AAAAAAAAAAAA"

/-- See `uuidHyphenated`. -/
def uuidPlain : Str := S "AAAAAAAAAAAAAAAAAAAAAAAAAAAAAAAA"

/-- A vless config carrying a `security` value (for claim C4). -/
def cfgSecurity : PyObj :=
  [(S "protocol", .vstr (S "vless")), (S "server", .vstr (S "s")),
   (S "port", .vint 443), (S "uuid", .vstr (S "u")),
   (S "type", .vstr (S "tcp")), (S "security", .vstr (S "reality"))]

/-- A defaults table with an upper-case key, which breaks idempotence of
normalization (for claim C8). -/
def defaultsUpper : Defaults := [(S "ss", [(S "Plugin", .vstr (S "x"))])]

/-- A defaults table whose entries are already normal (for the C8 witness). -/
def defaultsNormalEx : Defaults := [(S "ss", [(S "plugin", .vstr (S "obfs"))])]

/-- A minimal ss config (for claims C8 and C9). -/
def cfgSs : PyObj := [(S "protocol", .vstr (S "ss"))]

/-- A normalized trojan config (for the C10 witness). -/
def cfgTrojan : PyObj :=
  [(S "password", .vstr (S "p")), (S "port", .vint 443),
   (S "protocol", .vstr (S "trojan")), (S "server", .vstr (S "h")),
   (S "sni", .vstr (S "a.com"))]

/-- A normalized hy2 config with the same identity fields (for the C10
witness). -/
def cfgHy2 : PyObj :=
  [(S "password", .vstr (S "p")), (S "port", .vint 443),
   (S "protocol", .vstr (S "hy2")), (S "server", .vstr (S "h")),
   (S "sni", .vstr (S "a.com"))]

/-! ## Claim theorems -/

/-- C5 counterexample: the claim "loading the protocol defaults never aborts
the run" is false as stated: a defaults file that the YAML parser rejects
raises an uncaught error (only `FileNotFoundError` is caught), a file
loading as YAML `null` (an empty document) makes `protocol in defaults`
raise `TypeError` at the first parsed config, and a sequence document whose
elements include the protocol string raises `TypeError` at
`defaults[protocol]`. -/
theorem C5_counterexample :
    runPipeline (.readable .parseError) [] = .error .yamlError ∧
    runPipeline (.readable (.value .nullDoc)) [[S "vless://u@h:443"]] = .error .typeError ∧
    runPipeline (.readable (.value (.seqDoc [.vstr (S "vless")])))
      [[S "vless://u@h:443"]] = .error .typeError :=
  ⟨rfl, rfl, rfl⟩

/-- C5 (amended): only an absent defaults file degrades to an empty defaults
table, with which the run proceeds normally over every source list; a YAML
parse error is fatal for every source list; a sequence document is loaded
without error and its membership test raises nothing — with an empty
sequence the whole run proceeds exactly as with no defaults, and in general
a config whose normalized protocol value is `==` to no element proceeds with
no backfill, while a truthy protocol value `==` to some element raises
`TypeError` at `defaults[protocol]`. -/
theorem C5_absent_defaults_nonfatal :
    load_defaults .absent = .ok (.table []) ∧
    (∀ sources : List (List Str),
      runPipeline .absent sources = .ok (processSources [] sources)) ∧
    (∀ sources : List (List Str),
      runPipeline (.readable .parseError) sources = .error .yamlError) ∧
    (∀ l : List PyVal, load_defaults (.readable (.value (.seqDoc l))) = .ok (.seqDoc l)) ∧
    (∀ sources : List (List Str),
      runPipeline (.readable (.value (.seqDoc []))) sources =
        .ok (processSources [] sources)) ∧
    (∀ (config : PyObj) (l : List PyVal),
      l.any (pyEq (dget (dictify (rrlItems config)) (S "protocol"))) = false →
      normalizeWithLoaded (.seqDoc l) config = .ok (normalize_config config [])) ∧
    (∀ (config : PyObj) (l : List PyVal),
      truthy (dget (dictify (rrlItems config)) (S "protocol")) = true →
      l.any (pyEq (dget (dictify (rrlItems config)) (S "protocol"))) = true →
      normalizeWithLoaded (.seqDoc l) config = .error .typeError) :=
  ⟨rfl, runPipeline_absent, fun _ => rfl, fun _ => rfl, runPipeline_seqNil,
   normalizeWithLoaded_seq_not_mem, normalizeWithLoaded_seq_mem⟩

/-- C6: the per-source deduplication loop keeps exactly the first raw line
per fingerprint, discards later duplicates, emits kept lines in first-seen
order (the insertion-ordered table refines the streaming first-occurrence
specification `dedupSpecGo`), and processes every source against a fresh
empty table, independently of all other sources. -/
theorem C6_dedup_first_seen_per_source :
    ∀ (defaults : Defaults) (sources : List (List Str)),
      processSources defaults sources = sources.map (dedupSource defaults) ∧
      ∀ lines : List Str, dedupSource defaults lines = dedupSpecGo defaults [] lines :=
  fun defaults sources =>
    ⟨processSources_eq_map defaults sources, dedupSource_eq_spec defaults⟩

/-- C7 counterexample: a vless line with a missing port is not a parse
failure — the parser returns a config whose `port` is `None`. -/
theorem C7_counterexample :
    (parse_proxy_link (S "vless://u@h")).isSome = true ∧
    (parse_proxy_link (S "vless://u@h")).map (fun d => dlookup d (S "port")) =
      some (some .vnone) :=
  ⟨rfl, rfl⟩

/-- C7 (amended): a non-numeric port is a parse failure (raised while
reading the URL authority), but a missing port is not: the config is
returned with `port = None`, because the `if 'port' in config and
config['port']` guard skips the integer coercion for absent or falsy
ports. -/
theorem C7_port_amended :
    parse_proxy_link (S "vless://u@h:x") = none ∧
    (parse_proxy_link (S "vless://u@h")).map (fun d => dlookup d (S "port")) =
      some (some .vnone) ∧
    (∀ config : PyObj, dlookup config (S "port") = some PyVal.vnone →
      portCheck config = some config) ∧
    (∀ config : PyObj, dlookup config (S "port") = none →
      portCheck config = some config) := by
  refine ⟨rfl, rfl, ?_, ?_⟩
  · intro config h
    unfold portCheck dget
    rw [h]
    simp [truthy]
  · intro config h
    unfold portCheck dget
    rw [h]
    simp

/-- C7 witness: the amended coercion-skip facts at concrete configs. -/
theorem C7_witness :
    portCheck [(S "port", PyVal.vnone)] = some [(S "port", PyVal.vnone)] ∧
    portCheck [] = some [] :=
  ⟨C7_port_amended.2.2.1 _ rfl, C7_port_amended.2.2.2 _ rfl⟩

/-- C8 counterexample: normalization is not idempotent for every defaults
table: backfilling a default whose key is not lower-case (here `Plugin`)
makes the second pass lower-case it and the second backfill re-add the
original key, so the results differ. -/
theorem C8_counterexample :
    normalize_config (normalize_config cfgSs defaultsUpper) defaultsUpper ≠
      normalize_config cfgSs defaultsUpper :=
  fun h => absurd (congrArg List.length h) (by decide)

/-- C8 (amended): normalization is idempotent whenever every entry of the
defaults table is itself normal — its key lower-case and not a noise field,
its value neither `None` nor `""` and fixed by both normalization passes
(in particular, for the empty defaults table). -/
theorem C8_normalize_idem (x : PyObj) (d : Defaults) (hd : DefaultsNormal d) :
    normalize_config (normalize_config x d) d = normalize_config x d :=
  normalize_config_idem hd

/-- C8 witness: idempotence at a concrete config and a concrete normal
defaults table. -/
theorem C8_witness :
    normalize_config (normalize_config cfgSs defaultsNormalEx) defaultsNormalEx =
      normalize_config cfgSs defaultsNormalEx := by
  refine C8_normalize_idem cfgSs defaultsNormalEx ?_
  intro proto tbl ht kv hkv
  simp only [defaultsNormalEx, tlookup] at ht
  by_cases hp : S "ss" = proto
  · rw [if_pos hp] at ht
    injection ht with ht
    subst ht
    simp at hkv
    subst hkv
    exact ⟨rfl, by decide, rfl, rfl, rfl, rfl⟩
  · rw [if_neg hp] at ht
    simp [tlookup] at ht

/-- C9: adding a field from `NON_DETERMINISTIC_FIELDS` to a config, or
removing it, never changes the fingerprint computed by the
normalize-then-fingerprint pipeline. -/
theorem C9_noise_field_stability (config : PyObj) (f : Str) (v : PyVal) (d : Defaults)
    (hf : f ∈ NON_DETERMINISTIC_FIELDS) :
    fingerprint_config (normalize_config (dinsert config f v) d) =
      fingerprint_config (normalize_config config d) ∧
    fingerprint_config (normalize_config (derase config f) d) =
      fingerprint_config (normalize_config config d) := by
  constructor
  · rw [normalize_congr d (rrlItems_dinsert_ndf config v hf)]
  · rw [normalize_congr d (rrlItems_derase_ndf config hf)]

/-- C9 witness: fingerprint stability at the concrete field `remarks`. -/
theorem C9_witness :
    S "remarks" ∈ NON_DETERMINISTIC_FIELDS ∧
    (fingerprint_config (normalize_config (dinsert cfgSs (S "remarks") (.vstr (S "hi"))) []) =
      fingerprint_config (normalize_config cfgSs []) ∧
    fingerprint_config (normalize_config (derase cfgSs (S "remarks")) []) =
      fingerprint_config (normalize_config cfgSs [])) :=
  ⟨by decide, C9_noise_field_stability cfgSs (S "remarks") (.vstr (S "hi")) [] (by decide)⟩

/-- C1 counterexample: encodings (a) and (c) of the same
`method:password@host:port` both parse, but do not normalize to the same
`NormalizedConfig`: in encoding (c) the authority is never re-extracted from
the decoded text. -/
theorem C1_counterexample :
    (parse_proxy_link ssLinkA).isSome = true ∧
    (parse_proxy_link ssLinkC).isSome = true ∧
    normEmpty ssLinkC ≠ normEmpty ssLinkA := by
  refine ⟨rfl, rfl, fun h => ?_⟩
  exact absurd (congrArg (Option.map fun d => getStrField d (S "password")) h) (by decide)

/-- C1 (amended): all three encodings are accepted, the userinfo tried as
lenient base64 before cleartext, but no round-trip guarantee holds.
Exhibits: (a) and (b) of `aes-256-gcm:pass@1.2.3.4:8388` parse identically
and normalize to the same record; (a) and (b) of the credentials
`YWI6`/`Y2Q=` disagree, because the cleartext userinfo is itself decodable
and is mis-decoded to `ab`/`cd`; encoding (c) parses without ever
re-extracting the authority from the decoded text — for a pure blob,
`server` is the lower-cased blob and `port` absent, for a blob containing
`/` the `server` is only the blob prefix before it, and `password` keeps
the `@host:port` tail. -/
theorem C1_ss_encodings :
    (parse_proxy_link ssLinkB = parse_proxy_link ssLinkA ∧
     (parse_proxy_link ssLinkA).isSome = true ∧
     normEmpty ssLinkB = normEmpty ssLinkA ∧
     (normEmpty ssLinkA).map (fun d => getStrField d (S "method")) =
       some (some (S "aes-256-gcm")) ∧
     (normEmpty ssLinkA).map (fun d => getStrField d (S "password")) =
       some (some (S "pass")) ∧
     (normEmpty ssLinkA).map (fun d => getStrField d (S "server")) =
       some (some (S "1.2.3.4")) ∧
     (normEmpty ssLinkA).map (fun d => dlookup d (S "port")) =
       some (some (.vint 8388))) ∧
    ((parse_proxy_link ssLinkA2).map (fun d => getStrField d (S "method")) =
       some (some (S "ab")) ∧
     (parse_proxy_link ssLinkA2).map (fun d => getStrField d (S "password")) =
       some (some (S "cd")) ∧
     (parse_proxy_link ssLinkB2).map (fun d => getStrField d (S "method")) =
       some (some (S "YWI6")) ∧
     (parse_proxy_link ssLinkB2).map (fun d => getStrField d (S "password")) =
       some (some (S "Y2Q=")) ∧
     normEmpty ssLinkA2 ≠ normEmpty ssLinkB2) ∧
    ((normEmpty ssLinkC).map (fun d => getStrField d (S "password")) =
       some (some (S "pass@1.2.3.4:8388")) ∧
     (normEmpty ssLinkC).map (fun d => dlookup d (S "port")) = some none ∧
     (normEmpty ssLinkC).map (fun d => getStrField d (S "server")) =
       some (some (pyLower (S "YWVzLTI1Ni1nY206cGFzc0AxLjIuMy40OjgzODg="))) ∧
     (parse_proxy_link ssLinkD).map (fun d => getStrField d (S "server")) =
       some (some (S "yto")) ∧
     (parse_proxy_link ssLinkD).map (fun d => dlookup d (S "port")) =
       some (some .vnone) ∧
     (parse_proxy_link ssLinkD).map (fun d => getStrField d (S "method")) =
       some (some (S "a")) ∧
     (parse_proxy_link ssLinkD).map (fun d => getStrField d (S "password")) =
       some (some (S "?b@h:80"))) :=
  ⟨⟨rfl, rfl, rfl, rfl, rfl, rfl, rfl⟩,
   ⟨rfl, rfl, rfl, rfl, fun h =>
     absurd (congrArg (Option.map fun d => getStrField d (S "method")) h) (by decide)⟩,
   ⟨rfl, rfl, rfl, rfl, rfl, rfl, rfl⟩⟩

/-- C2 counterexample: a vmess URI with authority fields in the vless
pattern is a parse failure — the parser only ever tries the base64-JSON
reading of everything after `vmess://`. -/
theorem C2_counterexample : parse_proxy_link vmessUriLink = none := rfl

/-- C2 (amended): vmess supports only the base64-JSON encoding: whenever the
text after `vmess://` base64-decodes to UTF-8 JSON for an object, the parser
returns the config with the object's fields remapped (`ps`→`remarks`,
`add`→`server`, `id`→`uuid`, `aid`→`alterId`, `scy`|`security`→`security`,
`net`→`type`, and `host`, `path`, `tls`, `sni` with their defaults),
regardless of the URI authority. -/
theorem C2_vmess_base64_only (link : Str) (p : SplitResult) (bytes : List Nat)
    (jsonStr : Str) (obj : PyObj) (port : Int)
    (hurl : urlsplit link = some p)
    (hscheme : p.scheme = S "vmess")
    (hb : safe_b64decode (link.drop 8) = some bytes)
    (hu : utf8Decode bytes = some jsonStr)
    (hj : jsonLoadsObj jsonStr = some obj)
    (hport : pyIntOf (dgetD obj (S "port") (.vint 0)) = some port) :
    parse_proxy_link link =
      portCheck
        [(S "protocol", .vstr (S "vmess")),
         (S "remarks", dgetD obj (S "ps") (.vstr [])),
         (S "server", dgetD obj (S "add") (.vstr [])),
         (S "port", .vint port),
         (S "uuid", dgetD obj (S "id") (.vstr [])),
         (S "alterId", dgetD obj (S "aid") (.vstr (S "0"))),
         (S "security", dgetD obj (S "scy") (dgetD obj (S "security") (.vstr (S "auto")))),
         (S "type", dgetD obj (S "net") (.vstr (S "tcp"))),
         (S "host", dgetD obj (S "host") (.vstr [])),
         (S "path", dgetD obj (S "path") (.vstr [])),
         (S "tls", dgetD obj (S "tls") (.vstr (S "none"))),
         (S "sni", dgetD obj (S "sni") (dgetD obj (S "host") (.vstr [])))] := by
  unfold parse_proxy_link
  rw [hurl]
  simp only [Option.bind_eq_bind, Option.some_bind]
  rw [hscheme]
  have h1 : ¬ (S "vmess" = S "vless" ∨ S "vmess" = S "trojan") := by decide
  rw [if_neg h1, if_pos rfl, hb]
  simp only [Option.some_bind]
  rw [hu]
  simp only [Option.some_bind]
  rw [hj]
  simp only [Option.some_bind]
  rw [hport]
  simp only [Option.some_bind]

/-- C2 witness: the base64-JSON branch at a concrete blob link. -/
theorem C2_witness :
    parse_proxy_link vmessBlobLink =
      some [(S "protocol", .vstr (S "vmess")), (S "remarks", .vstr []),
        (S "server", .vstr (S "h")), (S "port", .vint 443),
        (S "uuid", .vstr (S "u")), (S "alterId", .vstr (S "0")),
        (S "security", .vstr (S "auto")), (S "type", .vstr (S "tcp")),
        (S "host", .vstr []), (S "path", .vstr []),
        (S "tls", .vstr (S "none")), (S "sni", .vstr [])] := by
  exact C2_vmess_base64_only vmessBlobLink _ _ _ _ _ rfl rfl rfl rfl rfl rfl

/-- A non-empty string is not the empty-string value. -/
theorem isEmptyStr_vstr_of_ne {s : Str} (h : s ≠ []) : isEmptyStr (.vstr s) = false := by
  cases s with
  | nil => exact absurd rfl h
  | cons c cs => rfl

/-- C3 counterexample: two spellings of one UUID (with and without hyphens)
both parse as UUIDs, but normalize to different records: normalization only
lower-cases the spelling, it does not store the canonical form. -/
theorem C3_counterexample :
    pyUuidValid uuidHyphenated = true ∧
    pyUuidValid uuidPlain = true ∧
    removeChar uuidHyphenated '-' = uuidPlain ∧
    normalize_config [(S "uuid", .vstr uuidHyphenated)] [] ≠
      normalize_config [(S "uuid", .vstr uuidPlain)] [] := by
  refine ⟨rfl, rfl, rfl, fun h => ?_⟩
  exact absurd (congrArg (fun d => getStrField d (S "uuid")) h) (by decide)

/-- C3 (amended): for a string value that parses as a UUID, normalization
stores `data.lower()` — the lower-cased original spelling, hyphens, braces
and all — not the canonical UUID form. -/
theorem C3_uuid_lowercased_only (s : Str) (d : Defaults)
    (hu : pyUuidValid s = true) (hs : s ≠ []) :
    normalize_config [(S "uuid", .vstr s)] d = [(S "uuid", .vstr (pyLower s))] := by
  rw [normalize_config_eq]
  have h1 : rrlItems [(S "uuid", .vstr s)] = [(S "uuid", .vstr (pyLower s))] := by
    rw [rrlItems_cons_keep]
    · have e1 : pyLower (S "uuid") = S "uuid" := by decide
      have e2 : rrlVal (.vstr s) = .vstr (pyLower s) := by simp [rrlVal, hu]
      rw [e1, e2]
      simp [rrlItems]
    · refine ⟨?_, rfl, isEmptyStr_vstr_of_ne hs⟩
      show pyLower (S "uuid") ∉ NON_DETERMINISTIC_FIELDS
      decide
  rw [h1]
  have h2 : dictify [(S "uuid", PyVal.vstr (pyLower s))] =
      [(S "uuid", PyVal.vstr (pyLower s))] :=
    dictify_eq_self (by simp [NodupKeys, dkeys])
  rw [h2]
  have h3 : postBackfill d [(S "uuid", PyVal.vstr (pyLower s))] =
      [(S "uuid", PyVal.vstr (pyLower s))] := by
    unfold postBackfill
    have : dget [(S "uuid", PyVal.vstr (pyLower s))] (S "protocol") = .vnone := by
      unfold dget dlookup
      rw [if_neg (by decide)]
      rfl
    rw [this]
    simp [pbProto]
  rw [h3]
  unfold sortObjTop
  rw [show sortItems [(S "uuid", PyVal.vstr (pyLower s))] =
    [(S "uuid", PyVal.vstr (pyLower s))] by simp [sortItems, sortVal]]
  simp [List.insertionSort]

/-- C3 witness: the amended behaviour at the hyphenated upper-case UUID. -/
theorem C3_witness :
    pyUuidValid uuidHyphenated = true ∧
    normalize_config [(S "uuid", .vstr uuidHyphenated)] [] =
      [(S "uuid", .vstr (pyLower uuidHyphenated))] :=
  ⟨rfl, C3_uuid_lowercased_only uuidHyphenated [] rfl (by decide)⟩

/-- C4 counterexample: the vless/vmess identity projection also contains
`security`, a field outside the claimed set. -/
theorem C4_counterexample :
    dlookup (get_identity_fields cfgSecurity) (S "security") =
      some (.vstr (S "reality")) ∧
    S "security" ∉ [S "server", S "port", S "uuid", S "type", S "host",
      S "path", S "sni"] :=
  ⟨rfl, by decide⟩

/-- C4 (amended): for protocol `vless` or `vmess` the identity projection is
`server`, `port`, `uuid`, `type` and also `security`, extended by
`host`/`path` when the type is `ws`, `grpc` or `http` and by `sni` when
`security` or `tls` equals `"tls"`, with every `None`-valued field
omitted. -/
theorem C4_identity_with_security (config : PyObj)
    (h : dget config (S "protocol") = .vstr (S "vless") ∨
      dget config (S "protocol") = .vstr (S "vmess")) :
    get_identity_fields config = vlessVmessIdentity config := by
  have hb : (valEqStr (dget config (S "protocol")) (S "vless") ||
      valEqStr (dget config (S "protocol")) (S "vmess")) = true := by
    rcases h with h | h <;> rw [h] <;> rfl
  simp only [get_identity_fields, vlessVmessIdentity, hb]
  by_cases ht : (valEqStr (dget config (S "type")) (S "ws") ||
      valEqStr (dget config (S "type")) (S "grpc") ||
      valEqStr (dget config (S "type")) (S "http")) = true <;>
  by_cases hs : (valEqStr (dget config (S "security")) (S "tls") ||
      valEqStr (dget config (S "tls")) (S "tls")) = true
  · simp only [ht, hs, if_true]
    rfl
  · rw [Bool.not_eq_true] at hs
    simp only [ht, hs, if_true, Bool.false_eq_true, if_false]
    rfl
  · rw [Bool.not_eq_true] at ht
    simp only [ht, hs, if_true, Bool.false_eq_true, if_false]
    rfl
  · rw [Bool.not_eq_true] at ht hs
    simp only [ht, hs, Bool.false_eq_true, if_false]
    rfl

/-- C4 witness: the amended projection at a concrete vless config. -/
theorem C4_witness : get_identity_fields cfgSecurity = vlessVmessIdentity cfgSecurity :=
  C4_identity_with_security cfgSecurity (Or.inl rfl)

/-- C10: the protocol tag only selects which fields are projected and is not
itself hashed: a trojan config and a hy2 config agreeing on `server`,
`port`, `password` and `sni`, with no insecure flag, have equal identity
projections and equal fingerprints, so the deduplicator treats them as
duplicates of each other. -/
theorem C10_cross_protocol_fingerprint (c1 c2 : PyObj)
    (h1 : dget c1 (S "protocol") = .vstr (S "trojan"))
    (h2 : dget c2 (S "protocol") = .vstr (S "hy2"))
    (hsrv : dget c1 (S "server") = dget c2 (S "server"))
    (hprt : dget c1 (S "port") = dget c2 (S "port"))
    (hpw : dget c1 (S "password") = dget c2 (S "password"))
    (hsni : dget c1 (S "sni") = dget c2 (S "sni"))
    (hins : dgetD c2 (S "insecure") (dget c2 (S "allowinsecure")) = .vnone) :
    get_identity_fields c1 = get_identity_fields c2 ∧
    fingerprint_config c1 = fingerprint_config c2 := by
  have hid : get_identity_fields c1 = get_identity_fields c2 := by
    unfold get_identity_fields
    rw [h1, h2, hsrv, hprt, hpw, hsni, hins]
    rfl
  exact ⟨hid, by unfold fingerprint_config; rw [hid]⟩

/-- C10 witness: the cross-protocol collision at concrete trojan and hy2
configs. -/
theorem C10_witness :
    get_identity_fields cfgTrojan = get_identity_fields cfgHy2 ∧
    fingerprint_config cfgTrojan = fingerprint_config cfgHy2 :=
  C10_cross_protocol_fingerprint cfgTrojan cfgHy2 rfl rfl rfl rfl rfl rfl rfl

end Dedup
